import Mathlib

/-!
clip2png: the DIB decoder of `readClipboard`.

A shallow embedding of `src/clipboard-png.go`.  The function `readClipboard`
obtains a pointer to a clipboard memory block that holds a device independent
bitmap, overlays a `bitmapHeader` on its first bytes, and copies the pixels that
follow the header into an `image.NRGBA`.

Modelling decisions:

* The calls to the clipboard API (`OpenClipboard`, `GetClipboardData`,
  `GlobalLock`) are the environment: their result is the argument `Clipboard`
  of `readClipboard`.  The deferred calls do not change what is returned.

* `readClipboard` does not know how long the clipboard block is: it loads
  from `ptr` on without any check.  Its memory is therefore the list `mem` of the
  bytes that can be read from the address `ptr` on: the bytes of the block,
  followed by the bytes that lie behind the block, up to the first address that
  is not mapped.  A buffer `buf` with the readable bytes `behind` it is the
  memory `buf ++ behind`.  Only a load past the end of `mem` is a fault,
  `Fault.accessViolation`; a load past the end of the buffer returns the byte
  that lies there.
* `src` is a pointer to an array of `1 << 48` bytes; Go checks every index
  against that length, so an index outside `[0, 2^48)` is the run-time panic
  `Fault.indexOutOfRange`.
* `int` is 64 bits wide (the array type `[1 << 48]uint8` does not compile with a
  32 bit `int`), `int32` is 32 bits wide; both wrap around.
* `image.NRGBA` is the standard library type: a byte slice `Pix`, a `Stride`
  and a rectangle `Rect`.  `image.NewNRGBA` panics when `make` is asked for more
  than `maxAlloc = 1 << 48` bytes, so no image of a Go process has a longer
  `Pix`.
-/

namespace Clip2png

/-! ## Machine integers -/

/-- The two's complement value of `v` in a signed integer of `bits` bits. -/
def wrapInt (bits : Nat) (v : Int) : Int :=
  (v + 2 ^ (bits - 1)) % 2 ^ bits - 2 ^ (bits - 1)

/-- Arithmetic result in Go's `int32`. -/
def wrap32 (v : Int) : Int := wrapInt 32 v

/-- Arithmetic result in Go's `int` (64 bits). -/
def wrap64 (v : Int) : Int := wrapInt 64 v

/-! ## Faults and results -/

/-- The ways the Go run time stops the program inside `readClipboard`. -/
inductive Fault where
  /-- A load from an address that is not mapped into the process: the access
  violation that ends the program. -/
  | accessViolation
  /-- An index into `src` that is outside `[0, 1 << 48)`. -/
  | indexOutOfRange
  /-- A slice expression `p.Pix[i : i+4 : i+4]` outside the capacity of `Pix`. -/
  | sliceBounds
  /-- The panic of `make` for a length above `maxAlloc` (`makeslice: len out of range`). -/
  | lenOutOfRange
  deriving DecidableEq, Repr

/-- Equality of results of fallible steps is decidable. -/
instance instDecidableEqExcept {ε α : Type} [DecidableEq ε] [DecidableEq α] :
    DecidableEq (Except ε α)
  | .ok a, .ok b => if h : a = b then isTrue (congrArg Except.ok h)
      else isFalse (fun he => h (Except.ok.inj he))
  | .error e, .error f => if h : e = f then isTrue (congrArg Except.error h)
      else isFalse (fun he => h (Except.error.inj he))
  | .ok _, .error _ => isFalse (fun he => Except.noConfusion he)
  | .error _, .ok _ => isFalse (fun he => Except.noConfusion he)

/-- The Go type `Error`, a string: `type Error string`. -/
abbrev Error := String

/-! ## The standard library image types -/

/-- Go `image.Point`. -/
structure Point where
  X : Int
  Y : Int
  deriving DecidableEq, Repr

/-- Go `image.Rectangle`. -/
structure Rectangle where
  Min : Point
  Max : Point
  deriving DecidableEq, Repr

/-- Go `image.Rect(0, 0, w, h)` for non-negative `w` and `h`. -/
def Rect0 (w h : Nat) : Rectangle := ⟨⟨0, 0⟩, ⟨w, h⟩⟩

/-- Go `func (r Rectangle) Dx() int`. -/
def Rectangle.Dx (r : Rectangle) : Int := r.Max.X - r.Min.X

/-- Go `func (r Rectangle) Dy() int`. -/
def Rectangle.Dy (r : Rectangle) : Int := r.Max.Y - r.Min.Y

/-- Go `func (p Point) In(r Rectangle) bool`. -/
def Point.In (p : Point) (r : Rectangle) : Bool :=
  decide (r.Min.X ≤ p.X) && decide (p.X < r.Max.X) &&
    decide (r.Min.Y ≤ p.Y) && decide (p.Y < r.Max.Y)

/-- Go `color.NRGBA`: four bytes. -/
structure Color where
  R : Nat
  G : Nat
  B : Nat
  A : Nat
  deriving DecidableEq, Repr

/-- Go `image.NRGBA`. -/
structure NRGBA where
  Pix : List Nat
  Stride : Int
  Rect : Rectangle
  deriving DecidableEq, Repr

/-- Go `func (p *NRGBA) PixOffset(x, y int) int`. -/
def NRGBA.PixOffset (p : NRGBA) (x y : Int) : Int :=
  (y - p.Rect.Min.Y) * p.Stride + (x - p.Rect.Min.X) * 4

/-- The four assignments `s[0] = c.R; s[1] = c.G; s[2] = c.B; s[3] = c.A` on the
slice that starts at position `n`. -/
def set4 (pix : List Nat) (n : Nat) (c : Color) : List Nat :=
  (((pix.set n c.R).set (n + 1) c.G).set (n + 2) c.B).set (n + 3) c.A

/-- Go `func (p *NRGBA) SetNRGBA(x, y int, c color.NRGBA)`: nothing happens for
a point outside `p.Rect`; the slice expression panics outside `Pix`. -/
def NRGBA.SetNRGBA (p : NRGBA) (x y : Int) (c : Color) : Except Fault NRGBA :=
  if !(Point.In ⟨x, y⟩ p.Rect) then .ok p
  else
    let i := p.PixOffset x y
    if 0 ≤ i ∧ i + 4 ≤ (p.Pix.length : Int) then
      .ok { p with Pix := set4 p.Pix i.toNat c }
    else .error Fault.sliceBounds

/-- Go `func (p *NRGBA) NRGBAAt(x, y int) color.NRGBA`: the zero colour outside
`p.Rect`. -/
def NRGBA.NRGBAAt (p : NRGBA) (x y : Int) : Except Fault Color :=
  if !(Point.In ⟨x, y⟩ p.Rect) then .ok ⟨0, 0, 0, 0⟩
  else
    let i := p.PixOffset x y
    if 0 ≤ i ∧ i + 4 ≤ (p.Pix.length : Int) then
      let n := i.toNat
      .ok ⟨p.Pix.getD n 0, p.Pix.getD (n + 1) 0, p.Pix.getD (n + 2) 0, p.Pix.getD (n + 3) 0⟩
    else .error Fault.sliceBounds

/-- The largest number of bytes `make` agrees to allocate: the constant
`maxAlloc` of the Go run time, `1 << 48` on the 64 bit platforms the program
compiles for.  No byte slice of a Go process is longer. -/
def maxAlloc : Nat := 2 ^ 48

/-- The image of `w` x `h` pixels with every byte 0. -/
def zeroNRGBA (w h : Nat) : NRGBA :=
  { Pix := List.replicate (4 * w * h) 0, Stride := 4 * (w : Int), Rect := Rect0 w h }

/-- Go `image.NewNRGBA(image.Rect(0, 0, w, h))`, as `main` calls it: the zeroed
image, or the panic of `make([]uint8, 4*w*h)` when that is more than `maxAlloc`
bytes. -/
def NewNRGBA (w h : Nat) : Except Fault NRGBA :=
  if 4 * w * h ≤ maxAlloc then .ok (zeroNRGBA w h) else .error Fault.lenOutOfRange

/-! ## The bitmap header, read in place -/

/-- The value of a little-endian byte sequence. -/
def leBytes : List Nat → Nat
  | [] => 0
  | b :: bs => b % 256 + 256 * leBytes bs

/-- A load of the `size` bytes at offset `off` of the readable memory `mem` as
an unsigned little-endian integer; the load is unchecked, and it faults only
where the memory is not mapped, that is past the end of `mem`. -/
def readUint (mem : List Nat) (off size : Nat) : Except Fault Nat :=
  let bs := (mem.drop off).take size
  if bs.length = size then .ok (leBytes bs) else .error Fault.accessViolation

/-- The signed reading of a 32 bit pattern. -/
def toInt32 (u : Nat) : Int := wrap32 (u : Int)

/-- The field `hdr.biSize` (`uint32` at offset 0). -/
def biSize (mem : List Nat) : Except Fault Nat := readUint mem 0 4

/-- The field `hdr.biWidth` (`int32` at offset 4). -/
def biWidth (mem : List Nat) : Except Fault Int := (readUint mem 4 4).map toInt32

/-- The field `hdr.biHeight` (`int32` at offset 8). -/
def biHeight (mem : List Nat) : Except Fault Int := (readUint mem 8 4).map toInt32

/-- The field `hdr.biBitCount` (`uint16` at offset 14). -/
def biBitCount (mem : List Nat) : Except Fault Nat := readUint mem 14 2

/-! ## The decoder -/

/-- The index expression `src[i]` where
`src := (*[1 << 48]uint8)(unsafe.Pointer(ptr + uintptr(hdr.biSize)))`: Go
checks the index against the array length `1 << 48` and then loads the byte at
`ptr + biSize + i`, whether it belongs to the clipboard block or lies behind it.
The load faults only where the memory `mem` readable from `ptr` ends. -/
def srcIndex (mem : List Nat) (size : Nat) (i : Int) : Except Fault Nat :=
  if 0 ≤ i ∧ i < 2 ^ 48 then
    match mem[size + i.toNat]? with
    | some b => .ok b
    | none => .error Fault.accessViolation
  else .error Fault.indexOutOfRange

/-- The offset
`o := ((int(hdr.biHeight-1) - y) * int(hdr.biWidth) * 4) + (x * 4)`;
`hdr.biHeight-1` is computed in `int32`, the rest in `int`.  Reduction modulo
`2^64` commutes with sums and products, so one reduction at the end gives the
value Go computes. -/
def pixelOffset (height width x y : Int) : Int :=
  wrap64 ((wrap32 (height - 1) - y) * width * 4 + x * 4)

/-- The colour `color.NRGBA{B: src[o+0], G: src[o+1], R: src[o+2], A: src[o+3]}`. -/
def readPixel (mem : List Nat) (size : Nat) (o : Int) : Except Fault Color := do
  let b ← srcIndex mem size (wrap64 (o + 0))
  let g ← srcIndex mem size (wrap64 (o + 1))
  let r ← srcIndex mem size (wrap64 (o + 2))
  let a ← srcIndex mem size (wrap64 (o + 3))
  pure { R := r, G := g, B := b, A := a }

/-- The body of the inner loop of the 32 bit case. -/
def pixelBody (mem : List Nat) (size : Nat) (y x : Int) (img : NRGBA) :
    Except Fault NRGBA := do
  let height ← biHeight mem
  let width ← biWidth mem
  let c ← readPixel mem size (pixelOffset height width x y)
  img.SetNRGBA x y c

/-- The loop `for i := n - 1; i >= 0; i-- { body }` over a state. -/
def loopDown {σ : Type} (body : Int → σ → Except Fault σ) : Nat → σ → Except Fault σ
  | 0, s => .ok s
  | n + 1, s => do
    let s' ← body (n : Int) s
    loopDown body n s'

/-- The inner loop `for x := (img.Rect.Dx() - 1); x >= 0; x-- { ... }`. -/
def rowLoop (mem : List Nat) (size : Nat) (y : Int) (img : NRGBA) : Except Fault NRGBA :=
  loopDown (pixelBody mem size y) (img.Rect.Dx - 1 + 1).toNat img

/-- The outer loop `for y := (img.Rect.Dy() - 1); y >= 0; y-- { ... }`. -/
def decode32 (mem : List Nat) (size : Nat) (img : NRGBA) : Except Fault NRGBA :=
  loopDown (rowLoop mem size) (img.Rect.Dy - 1 + 1).toNat img

/-- What the calls to the clipboard API hand to `readClipboard`. -/
inductive Clipboard where
  /-- The call `OpenClipboard` returned 0, with the error `err`. -/
  | openFailed (err : Error)
  /-- The call `GetClipboardData(CF_DIB)` returned the handle 0. -/
  | noData (err : Error)
  /-- The call `GlobalLock` returned the pointer 0. -/
  | lockFailed (err : Error)
  /-- The call `GlobalLock` returned a pointer `ptr` to the block; `mem` is the
  memory readable from `ptr` on: the block and the readable bytes behind it. -/
  | locked (mem : List Nat)

/-- What a call of `readClipboard` ends in: it returns an `error` (or `nil`)
and leaves the image in a state, or the run time stops the program. -/
inductive Outcome where
  | returned (err : Option Error) (img : NRGBA)
  | crashed (f : Fault)
  deriving DecidableEq, Repr

/-- The error of the 24 bit case. -/
def errUnimplemented : Error := "unimplemented, sorry..."

/-- The error of the default case. -/
def errUnsupported : Error := "unsuported bit depth"

/-- Go `func readClipboard(img *image.NRGBA) error`. -/
def readClipboard (cb : Clipboard) (img : NRGBA) : Outcome :=
  match cb with
  | .openFailed err => .returned (some err) img
  | .noData err => .returned (some err) img
  | .lockFailed err => .returned (some err) img
  | .locked mem =>
    match biSize mem with
    | .error f => .crashed f
    | .ok size =>
      match biBitCount mem with
      | .error f => .crashed f
      | .ok bits =>
        if bits = 32 then
          match decode32 mem size img with
          | .error f => .crashed f
          | .ok img' => .returned none img'
        else if bits = 24 then .returned (some errUnimplemented) img
        else .returned (some errUnsupported) img

/-! ## Examples -/

/-- A 40 byte header: `biSize = 40`, one plane, the given width, height and
bit count, every other field zero. -/
def headerBytes (width height bits : Nat) : List Nat :=
  [40, 0, 0, 0,
   width % 256, width / 256 % 256, width / 65536 % 256, width / 16777216 % 256,
   height % 256, height / 256 % 256, height / 65536 % 256, height / 16777216 % 256,
   1, 0, bits % 256, bits / 256 % 256] ++ List.replicate 24 0

/-- The 2 x 2 example: buffer row 0 is `00 00 FF FF, 00 FF 00 FF`, buffer row 1
is `FF 00 00 FF, FF FF FF FF`. -/
def exampleMem : List Nat :=
  headerBytes 2 2 32 ++
    [0x00, 0x00, 0xFF, 0xFF, 0x00, 0xFF, 0x00, 0xFF,
     0xFF, 0x00, 0x00, 0xFF, 0xFF, 0xFF, 0xFF, 0xFF]

/-! ## Specification vocabulary -/

/-- An image as `image.NewNRGBA(image.Rect(0, 0, w, h))` allocates it, holding
any bytes: a target of size `w` x `h`. -/
def NRGBA.Sized (img : NRGBA) (w h : Nat) : Prop :=
  img.Rect = Rect0 w h ∧ img.Stride = 4 * (w : Int) ∧ img.Pix.length = 4 * w * h

instance instDecidableSized (img : NRGBA) (w h : Nat) : Decidable (img.Sized w h) := by
  unfold NRGBA.Sized
  infer_instance

/-- A target of size `w` x `h` of a Go process: an image of the shape that
`image.NewNRGBA(image.Rect(0, 0, w, h))` returns, holding any bytes.  Its `Pix`
has `4*w*h` bytes, and no more than `maxAlloc`, as every byte slice. -/
def NRGBA.Allocated (img : NRGBA) (w h : Nat) : Prop :=
  img.Sized w h ∧ img.Pix.length ≤ maxAlloc

instance instDecidableAllocated (img : NRGBA) (w h : Nat) :
    Decidable (img.Allocated w h) := by
  unfold NRGBA.Allocated
  infer_instance

/-- The colour stored in the four bytes of pixel number `p` of a byte slice. -/
def pixAt (pix : List Nat) (p : Nat) : Color :=
  ⟨pix.getD (4 * p) 0, pix.getD (4 * p + 1) 0, pix.getD (4 * p + 2) 0, pix.getD (4 * p + 3) 0⟩

/-- The colour that one pass through the loop body reads: the two header fields,
the offset, the four bytes. -/
def pixelColor (mem : List Nat) (size : Nat) (y x : Int) : Except Fault Color := do
  let height ← biHeight mem
  let width ← biWidth mem
  readPixel mem size (pixelOffset height width x y)

/-- Two runs end the same way: with the same fault, or with states related by `R`. -/
def RelOut {σ : Type} (R : σ → σ → Prop) : Except Fault σ → Except Fault σ → Prop
  | .ok s, .ok t => R s t
  | .error f, .error g => f = g
  | _, _ => False

/-- The colour of the source pixel at byte offset `o` of the pixel region `src`:
`R = src[o+2]`, `G = src[o+1]`, `B = src[o+0]`, `A = src[o+3]`. -/
def srcColor (src : List Nat) (o : Nat) : Color :=
  { R := src.getD (o + 2) 0, G := src.getD (o + 1) 0, B := src.getD o 0, A := src.getD (o + 3) 0 }

/-- The 2 x 2 example with other values in the fields the decoder does not
read: `biPlanes = 2`, `biCompression = 3`, and non-zero `biSizeImage`,
`biXPelsPerMeter`, `biYPelsPerMeter`, `biClrUsed`, `biClrImportant`. -/
def exampleMemAlt : List Nat :=
  [40, 0, 0, 0, 2, 0, 0, 0, 2, 0, 0, 0, 2, 0, 32, 0,
   3, 0, 0, 0, 16, 0, 0, 0, 19, 11, 0, 0, 19, 11, 0, 0, 7, 0, 0, 0, 5, 0, 0, 0] ++
    [0x00, 0x00, 0xFF, 0xFF, 0x00, 0xFF, 0x00, 0xFF,
     0xFF, 0x00, 0x00, 0xFF, 0xFF, 0xFF, 0xFF, 0xFF]

/-- A 2 x 2 target that holds other bytes than a fresh one. -/
def usedTarget : NRGBA :=
  { Pix := [1, 2, 3, 4, 5, 6, 7, 8, 9, 10, 11, 12, 13, 14, 15, 16], Stride := 8,
    Rect := Rect0 2 2 }

/-- What the decoder makes of the 2 x 2 example, as `Pix` bytes in R, G, B, A
order: top row `00 00 FF FF`, `FF FF FF FF`; bottom row `FF 00 00 FF`,
`00 FF 00 FF`. -/
def exampleOut : NRGBA :=
  { Pix := [0x00, 0x00, 0xFF, 0xFF, 0xFF, 0xFF, 0xFF, 0xFF,
            0xFF, 0x00, 0x00, 0xFF, 0x00, 0xFF, 0x00, 0xFF],
    Stride := 8, Rect := Rect0 2 2 }

/-- A header that declares 2 x 1 pixels of 32 bits, followed by two pixels. -/
def wideMem : List Nat :=
  headerBytes 2 1 32 ++ [10, 20, 30, 40, 50, 60, 70, 80]

/-- A 2 x 2 bitmap of 32 bits.  Buffer row 0 holds the pixels
`[B=10, G=20, R=30, A=40]` and `[11, 21, 31, 41]`, buffer row 1 the pixels
`[50, 60, 70, 80]` and `[51, 61, 71, 81]`. -/
def flipMem : List Nat :=
  headerBytes 2 2 32 ++
    [10, 20, 30, 40, 11, 21, 31, 41, 50, 60, 70, 80, 51, 61, 71, 81]

/-- A header that declares 2 x 1 pixels of 32 bits, followed by the first of
the two pixels only: a truncated buffer of 44 bytes. -/
def truncMem : List Nat :=
  headerBytes 2 1 32 ++ [10, 20, 30, 40]

/-- Eight bytes: shorter than a header. -/
def shortMem : List Nat := [40, 0, 0, 0, 1, 0, 0, 0]

/-- A 1 x 1 header of 32 bits whose `biSize` field is 100, followed by one
pixel: 44 bytes in all. -/
def farMem : List Nat :=
  [100, 0, 0, 0, 1, 0, 0, 0, 1, 0, 0, 0, 1, 0, 32, 0] ++ List.replicate 24 0 ++
    [10, 20, 30, 40]

/-- The colour of pixel `(x, y)` of an image, read with `NRGBAAt`. -/
def colorAt (img : NRGBA) (x y : Nat) : Color :=
  match img.NRGBAAt (x : Int) (y : Int) with
  | .ok c => c
  | .error _ => ⟨0, 0, 0, 0⟩

/-- Pixel `x` of buffer row `r` of the synthetic bitmap of an image of height
`H`: pixel `(x, H - 1 - r)` of the image as the bytes B, G, R, A. -/
def dibPixel (img : NRGBA) (H r x : Nat) : List Nat :=
  [(colorAt img x (H - 1 - r)).B, (colorAt img x (H - 1 - r)).G,
   (colorAt img x (H - 1 - r)).R, (colorAt img x (H - 1 - r)).A]

/-- Buffer row `r` of the synthetic bitmap: the pixels of image row `H - 1 - r`
from left to right. -/
def dibRow (img : NRGBA) (W H r : Nat) : List Nat :=
  (List.range W).flatMap (dibPixel img H r)

/-- The pixel region of the synthetic bitmap: the rows in bottom-to-top order. -/
def dibPixels (img : NRGBA) (W H : Nat) : List Nat :=
  (List.range H).flatMap (dibRow img W H)

/-- Modelled from the spec: the synthetic DIB buffer that the test harness of
the round trip property builds from a known image; the repository has no such
builder.  A header with bit count 32, width `W`, height `H`, followed by the
rows in bottom-to-top order as B, G, R, A bytes. -/
def syntheticDIB (img : NRGBA) (W H : Nat) : List Nat :=
  headerBytes W H 32 ++ dibPixels img W H

/-! ## Machine integers: lemmas -/

theorem wrap64_eq (v : Int) (h1 : -2 ^ 63 ≤ v) (h2 : v < 2 ^ 63) : wrap64 v = v := by
  unfold wrap64 wrapInt
  norm_num
  omega

theorem wrap32_eq (v : Int) (h1 : -2 ^ 31 ≤ v) (h2 : v < 2 ^ 31) : wrap32 v = v := by
  unfold wrap32 wrapInt
  norm_num
  omega

theorem wrap64_range (v : Int) : -2 ^ 63 ≤ wrap64 v ∧ wrap64 v < 2 ^ 63 := by
  unfold wrap64 wrapInt
  norm_num
  omega

theorem wrap64_high (v : Int) (h1 : 2 ^ 48 ≤ v) (h2 : v < 2 ^ 64) :
    ¬ (0 ≤ wrap64 v ∧ wrap64 v < 2 ^ 48) := by
  unfold wrap64 wrapInt
  norm_num
  omega

/-! ## Header reads: lemmas -/

theorem readUint_ok (mem : List Nat) (off size : Nat) (h : off + size ≤ mem.length) :
    readUint mem off size = .ok (leBytes ((mem.drop off).take size)) := by
  unfold readUint
  have hlen : ((mem.drop off).take size).length = size := by
    rw [List.length_take, List.length_drop]
    exact Nat.min_eq_left (by omega)
  simp only [hlen, if_true]

theorem readUint_error (mem : List Nat) (off size : Nat) (hs : 0 < size)
    (h : mem.length < off + size) :
    readUint mem off size = .error Fault.accessViolation := by
  unfold readUint
  have hlen : ((mem.drop off).take size).length ≠ size := by
    rw [List.length_take, List.length_drop]
    have := Nat.min_le_right size (mem.length - off)
    omega
  simp only [hlen, if_false]

theorem readUint_length (mem : List Nat) (off size v : Nat) (hs : 0 < size)
    (h : readUint mem off size = .ok v) : off + size ≤ mem.length := by
  by_contra hc
  rw [readUint_error mem off size hs (by omega)] at h
  cases h

theorem readUint_append (l1 l2 : List Nat) (off size : Nat) (h : off + size ≤ l1.length) :
    readUint (l1 ++ l2) off size = readUint l1 off size := by
  rw [readUint_ok _ _ _ h, readUint_ok _ _ _ (by rw [List.length_append]; omega)]
  congr 2
  rw [List.drop_append_of_le_length (by omega), List.take_append_of_le_length]
  rw [List.length_drop]
  omega

/-! ## Image writes: lemmas -/

theorem flat_lt (w h x y : Nat) (hx : x < w) (hy : y < h) : y * w + x < h * w := by
  have h1 : (y + 1) * w ≤ h * w := Nat.mul_le_mul_right w hy
  have h2 : (y + 1) * w = y * w + w := by ring
  omega

theorem flat_inj (w x y x' y' : Nat) (hx : x < w) (hx' : x' < w)
    (h : y * w + x = y' * w + x') : x = x' ∧ y = y' := by
  have hw : 0 < w := by omega
  have e1 : (y * w + x) / w = y := by
    rw [Nat.add_comm, Nat.add_mul_div_right _ _ hw, Nat.div_eq_of_lt hx, Nat.zero_add]
  have e2 : (y' * w + x') / w = y' := by
    rw [Nat.add_comm, Nat.add_mul_div_right _ _ hw, Nat.div_eq_of_lt hx', Nat.zero_add]
  have hy : y = y' := by rw [← e1, ← e2, h]
  subst hy
  exact ⟨by omega, rfl⟩

theorem length_set4 (l : List Nat) (n : Nat) (c : Color) : (set4 l n c).length = l.length := by
  simp [set4]

theorem getElem?_set4_out (l : List Nat) (n i : Nat) (c : Color) (h : i < n ∨ n + 4 ≤ i) :
    (set4 l n c)[i]? = l[i]? := by
  unfold set4
  rw [List.getElem?_set_ne (by omega), List.getElem?_set_ne (by omega),
    List.getElem?_set_ne (by omega), List.getElem?_set_ne (by omega)]

theorem getElem?_set4_in (l : List Nat) (n : Nat) (c : Color) (h : n + 4 ≤ l.length) :
    (set4 l n c)[n]? = some c.R ∧ (set4 l n c)[n + 1]? = some c.G ∧
      (set4 l n c)[n + 2]? = some c.B ∧ (set4 l n c)[n + 3]? = some c.A := by
  unfold set4
  refine ⟨?_, ?_, ?_, ?_⟩
  · rw [List.getElem?_set_ne (by omega), List.getElem?_set_ne (by omega),
      List.getElem?_set_ne (by omega), List.getElem?_set_self (by omega)]
  · rw [List.getElem?_set_ne (by omega), List.getElem?_set_ne (by omega),
      List.getElem?_set_self (by simp; omega)]
  · rw [List.getElem?_set_ne (by omega), List.getElem?_set_self (by simp; omega)]
  · rw [List.getElem?_set_self (by simp; omega)]

theorem pixAt_set4_same (l : List Nat) (p : Nat) (c : Color) (h : 4 * p + 4 ≤ l.length) :
    pixAt (set4 l (4 * p) c) p = c := by
  obtain ⟨h0, h1, h2, h3⟩ := getElem?_set4_in l (4 * p) c h
  unfold pixAt
  simp only [List.getD_eq_getElem?_getD, h0, h1, h2, h3, Option.getD_some]

theorem pixAt_set4_ne (l : List Nat) (p q : Nat) (c : Color) (h : q ≠ p) :
    pixAt (set4 l (4 * p) c) q = pixAt l q := by
  unfold pixAt
  simp only [List.getD_eq_getElem?_getD]
  rw [getElem?_set4_out l (4 * p) (4 * q) c (by omega),
    getElem?_set4_out l (4 * p) (4 * q + 1) c (by omega),
    getElem?_set4_out l (4 * p) (4 * q + 2) c (by omega),
    getElem?_set4_out l (4 * p) (4 * q + 3) c (by omega)]

theorem pointIn_sized (img : NRGBA) (w h x y : Nat) (hs : img.Sized w h) (hx : x < w)
    (hy : y < h) : Point.In ⟨(x : Int), (y : Int)⟩ img.Rect = true := by
  obtain ⟨hr, -, -⟩ := hs
  rw [hr]
  simp only [Point.In, Rect0, Bool.and_eq_true, decide_eq_true_eq]
  omega

theorem pixOffset_sized (img : NRGBA) (w h x y : Nat) (hs : img.Sized w h) :
    img.PixOffset (x : Int) (y : Int) = ((4 * (y * w + x) : Nat) : Int) := by
  obtain ⟨hr, hst, -⟩ := hs
  unfold NRGBA.PixOffset
  rw [hr, hst]
  simp only [Rect0]
  push_cast
  ring

theorem setNRGBA_sized (img : NRGBA) (w h x y : Nat) (c : Color) (hs : img.Sized w h)
    (hx : x < w) (hy : y < h) :
    img.SetNRGBA (x : Int) (y : Int) c =
      .ok { img with Pix := set4 img.Pix (4 * (y * w + x)) c } := by
  have hlt := flat_lt w h x y hx hy
  have hlen : img.Pix.length = 4 * (h * w) := by rw [hs.2.2]; ring
  unfold NRGBA.SetNRGBA
  rw [pointIn_sized img w h x y hs hx hy, pixOffset_sized img w h x y hs]
  simp only [Bool.not_true, Bool.false_eq_true, if_false, Int.toNat_ofNat]
  rw [if_pos (by omega)]

theorem nrgbaAt_sized (img : NRGBA) (w h x y : Nat) (hs : img.Sized w h)
    (hx : x < w) (hy : y < h) :
    img.NRGBAAt (x : Int) (y : Int) = .ok (pixAt img.Pix (y * w + x)) := by
  have hlt := flat_lt w h x y hx hy
  have hlen : img.Pix.length = 4 * (h * w) := by rw [hs.2.2]; ring
  unfold NRGBA.NRGBAAt
  rw [pointIn_sized img w h x y hs hx hy, pixOffset_sized img w h x y hs]
  simp only [Bool.not_true, Bool.false_eq_true, if_false, Int.toNat_ofNat]
  rw [if_pos (by omega)]
  rfl

theorem setNRGBA_preserves (img img' : NRGBA) (w h : Nat) (x y : Int) (c : Color)
    (hs : img.Sized w h) (he : img.SetNRGBA x y c = .ok img') : img'.Sized w h := by
  unfold NRGBA.SetNRGBA at he
  split at he
  · cases he
    exact hs
  · simp only at he
    split at he
    · cases he
      exact ⟨hs.1, hs.2.1, by rw [length_set4]; exact hs.2.2⟩
    · cases he

/-! ## Loops: lemmas -/

theorem loopDown_succ {σ : Type} (body : Int → σ → Except Fault σ) (n : Nat) (s s' : σ)
    (h : body (n : Int) s = .ok s') : loopDown body (n + 1) s = loopDown body n s' := by
  simp only [loopDown, h]
  rfl

theorem loopDown_succ_error {σ : Type} (body : Int → σ → Except Fault σ) (n : Nat) (s : σ)
    (f : Fault) (h : body (n : Int) s = .error f) : loopDown body (n + 1) s = .error f := by
  simp only [loopDown, h]
  rfl

theorem loopDown_inv {σ : Type} (body : Int → σ → Except Fault σ) (Inv : Nat → σ → Prop) :
    ∀ (n : Nat),
      (∀ i, i < n → ∀ s, Inv (i + 1) s → ∃ s', body (i : Int) s = .ok s' ∧ Inv i s') →
      ∀ s, Inv n s → ∃ s', loopDown body n s = .ok s' ∧ Inv 0 s'
  | 0, _, s, hs => ⟨s, rfl, hs⟩
  | n + 1, hstep, s, hs => by
    obtain ⟨s1, h1, hi1⟩ := hstep n (Nat.lt_succ_self n) s hs
    obtain ⟨s2, h2, hi2⟩ :=
      loopDown_inv body Inv n (fun i hi => hstep i (Nat.lt_succ_of_lt hi)) s1 hi1
    exact ⟨s2, by rw [loopDown_succ body n s s1 h1]; exact h2, hi2⟩

theorem loopDown_preserves {σ : Type} (body : Int → σ → Except Fault σ) (I : σ → Prop)
    (hpres : ∀ (i : Nat) s s', I s → body (i : Int) s = .ok s' → I s') :
    ∀ (n : Nat) s s', I s → loopDown body n s = .ok s' → I s'
  | 0, s, s', hs, h => by
    cases h
    exact hs
  | n + 1, s, s', hs, h => by
    cases hb : body (n : Int) s with
    | error f =>
      rw [loopDown_succ_error body n s f hb] at h
      cases h
    | ok s1 =>
      rw [loopDown_succ body n s s1 hb] at h
      exact loopDown_preserves body I hpres n s1 s' (hpres n s s1 hs hb) h

theorem loopDown_fails {σ : Type} (body : Int → σ → Except Fault σ) (I : σ → Prop) (k : Nat)
    (hpres : ∀ (i : Nat) s s', I s → body (i : Int) s = .ok s' → I s')
    (hfail : ∀ s, I s → ∃ f, body (k : Int) s = .error f) :
    ∀ (n : Nat), k < n → ∀ s, I s → ∃ f, loopDown body n s = .error f
  | 0, hk, _, _ => absurd hk (Nat.not_lt_zero k)
  | n + 1, hk, s, hs => by
    cases hb : body (n : Int) s with
    | error f => exact ⟨f, loopDown_succ_error body n s f hb⟩
    | ok s1 =>
      rw [loopDown_succ body n s s1 hb]
      have hkn : k < n := by
        rcases Nat.lt_succ_iff_lt_or_eq.mp hk with hlt | heq
        · exact hlt
        · subst heq
          obtain ⟨f, hf⟩ := hfail s hs
          rw [hf] at hb
          cases hb
      exact loopDown_fails body I k hpres hfail n hkn s1 (hpres n s s1 hs hb)

theorem loopDown_rel {σ : Type} (body : Int → σ → Except Fault σ) (R : Nat → σ → σ → Prop) :
    ∀ (n : Nat),
      (∀ i, i < n → ∀ s t, R (i + 1) s t → RelOut (R i) (body (i : Int) s) (body (i : Int) t)) →
      ∀ s t, R n s t → RelOut (R 0) (loopDown body n s) (loopDown body n t)
  | 0, _, s, t, hr => hr
  | n + 1, hstep, s, t, hr => by
    have hb := hstep n (Nat.lt_succ_self n) s t hr
    cases hs : body (n : Int) s with
    | error f =>
      cases ht : body (n : Int) t with
      | error g =>
        rw [hs, ht] at hb
        rw [loopDown_succ_error body n s f hs, loopDown_succ_error body n t g ht]
        exact hb
      | ok t1 =>
        rw [hs, ht] at hb
        exact hb.elim
    | ok s1 =>
      cases ht : body (n : Int) t with
      | error g =>
        rw [hs, ht] at hb
        exact hb.elim
      | ok t1 =>
        rw [hs, ht] at hb
        rw [loopDown_succ body n s s1 hs, loopDown_succ body n t t1 ht]
        exact loopDown_rel body R n (fun i hi => hstep i (Nat.lt_succ_of_lt hi)) s1 t1 hb

/-! ## The loop body: lemmas -/

theorem pixelBody_ok (mem : List Nat) (size : Nat) (y x : Int) (img : NRGBA) (c : Color)
    (h : pixelColor mem size y x = .ok c) :
    pixelBody mem size y x img = img.SetNRGBA x y c := by
  unfold pixelColor at h
  unfold pixelBody
  cases hh : biHeight mem with
  | error f => rw [hh] at h; cases h
  | ok height =>
    cases hw : biWidth mem with
    | error f => rw [hh, hw] at h; cases h
    | ok width =>
      rw [hh, hw] at h
      have h' : readPixel mem size (pixelOffset height width x y) = .ok c := h
      show (readPixel mem size (pixelOffset height width x y) >>= fun c => img.SetNRGBA x y c) = _
      rw [h']
      rfl

theorem pixelBody_error (mem : List Nat) (size : Nat) (y x : Int) (img : NRGBA) (f : Fault)
    (h : pixelColor mem size y x = .error f) :
    pixelBody mem size y x img = .error f := by
  unfold pixelColor at h
  unfold pixelBody
  cases hh : biHeight mem with
  | error g =>
    rw [hh] at h
    cases h
    rfl
  | ok height =>
    cases hw : biWidth mem with
    | error g =>
      rw [hh, hw] at h
      cases h
      rfl
    | ok width =>
      rw [hh, hw] at h
      have h' : readPixel mem size (pixelOffset height width x y) = .error f := h
      show (readPixel mem size (pixelOffset height width x y) >>= fun c => img.SetNRGBA x y c) = _
      rw [h']
      rfl

theorem pixelBody_preserves (mem : List Nat) (size : Nat) (w h : Nat) (y x : Int)
    (img img' : NRGBA) (hs : img.Sized w h) (he : pixelBody mem size y x img = .ok img') :
    img'.Sized w h := by
  cases hc : pixelColor mem size y x with
  | error f =>
    rw [pixelBody_error mem size y x img f hc] at he
    cases he
  | ok c =>
    rw [pixelBody_ok mem size y x img c hc] at he
    exact setNRGBA_preserves img img' w h x y c hs he

theorem rowLoop_sized (mem : List Nat) (size : Nat) (w h : Nat) (y : Int) (img : NRGBA)
    (hs : img.Sized w h) :
    rowLoop mem size y img = loopDown (pixelBody mem size y) w img := by
  unfold rowLoop
  rw [hs.1]
  simp [Rectangle.Dx, Rect0]

theorem decode32_sized (mem : List Nat) (size : Nat) (w h : Nat) (img : NRGBA)
    (hs : img.Sized w h) :
    decode32 mem size img = loopDown (rowLoop mem size) h img := by
  unfold decode32
  rw [hs.1]
  simp [Rectangle.Dy, Rect0]

theorem rowLoop_preserves (mem : List Nat) (size : Nat) (w h : Nat) (y : Int)
    (img img' : NRGBA) (hs : img.Sized w h) (he : rowLoop mem size y img = .ok img') :
    img'.Sized w h := by
  rw [rowLoop_sized mem size w h y img hs] at he
  exact loopDown_preserves (pixelBody mem size y) (fun s => s.Sized w h)
    (fun i s s' hs' hb => pixelBody_preserves mem size w h y i s s' hs' hb) w img img' hs he

/-! ## The 32 bit case on a sized target: what it writes -/

theorem rowLoop_spec (mem : List Nat) (size : Nat) (w h y : Nat) (col : Nat → Color)
    (hy : y < h)
    (hcol : ∀ x, x < w → pixelColor mem size (y : Int) (x : Int) = .ok (col x))
    (img : NRGBA) (hs : img.Sized w h) :
    ∃ r, rowLoop mem size (y : Int) img = .ok r ∧ r.Sized w h ∧
      ∀ x' y', x' < w → y' < h →
        pixAt r.Pix (y' * w + x') =
          if y' = y then col x' else pixAt img.Pix (y' * w + x') := by
  rw [rowLoop_sized mem size w h y img hs]
  have hstep : ∀ i, i < w → ∀ s : NRGBA,
      (s.Sized w h ∧ ∀ x' y', x' < w → y' < h → pixAt s.Pix (y' * w + x') =
          if y' = y ∧ i + 1 ≤ x' then col x' else pixAt img.Pix (y' * w + x')) →
      ∃ s', pixelBody mem size (y : Int) (i : Int) s = .ok s' ∧
        (s'.Sized w h ∧ ∀ x' y', x' < w → y' < h → pixAt s'.Pix (y' * w + x') =
          if y' = y ∧ i ≤ x' then col x' else pixAt img.Pix (y' * w + x')) := by
    intro i hi s hinv
    obtain ⟨hsz, hpix⟩ := hinv
    have hlt := flat_lt w h i y hi hy
    have hlen : s.Pix.length = 4 * (h * w) := by rw [hsz.2.2]; ring
    rw [pixelBody_ok mem size y i s (col i) (hcol i hi),
      setNRGBA_sized s w h i y (col i) hsz hi hy]
    refine ⟨_, rfl, ⟨hsz.1, hsz.2.1, ?_⟩, ?_⟩
    · show (set4 s.Pix (4 * (y * w + i)) (col i)).length = 4 * w * h
      rw [length_set4]
      exact hsz.2.2
    · intro x' y' hx' hy'
      show pixAt (set4 s.Pix (4 * (y * w + i)) (col i)) (y' * w + x') = _
      by_cases hxy : y' * w + x' = y * w + i
      · obtain ⟨hxe, hye⟩ := flat_inj w x' y' i y hx' hi hxy
        subst hxe
        subst hye
        rw [pixAt_set4_same _ _ _ (by omega)]
        simp
      · rw [pixAt_set4_ne _ _ _ _ hxy, hpix x' y' hx' hy']
        by_cases hc : y' = y
        · subst hc
          have hne : x' ≠ i := fun he => hxy (by rw [he])
          by_cases hle : i ≤ x'
          · rw [if_pos ⟨rfl, by omega⟩, if_pos ⟨rfl, hle⟩]
          · rw [if_neg (by omega), if_neg (by omega)]
        · rw [if_neg (fun hh => hc hh.1), if_neg (fun hh => hc hh.1)]
  obtain ⟨r, hr, hsz, hpix⟩ := loopDown_inv (pixelBody mem size (y : Int))
    (fun i s => s.Sized w h ∧ ∀ x' y', x' < w → y' < h → pixAt s.Pix (y' * w + x') =
      if y' = y ∧ i ≤ x' then col x' else pixAt img.Pix (y' * w + x'))
    w hstep img ⟨hs, fun x' y' hx' _ => by rw [if_neg (by omega)]⟩
  refine ⟨r, hr, hsz, fun x' y' hx' hy' => ?_⟩
  rw [hpix x' y' hx' hy']
  simp

theorem decode32_spec (mem : List Nat) (size : Nat) (w h : Nat) (col : Nat → Nat → Color)
    (hcol : ∀ x y, x < w → y < h → pixelColor mem size (y : Int) (x : Int) = .ok (col x y))
    (img : NRGBA) (hs : img.Sized w h) :
    ∃ r, decode32 mem size img = .ok r ∧ r.Sized w h ∧
      ∀ x y, x < w → y < h → pixAt r.Pix (y * w + x) = col x y := by
  rw [decode32_sized mem size w h img hs]
  have hstep : ∀ j, j < h → ∀ s : NRGBA,
      (s.Sized w h ∧ ∀ x y, x < w → y < h → j + 1 ≤ y → pixAt s.Pix (y * w + x) = col x y) →
      ∃ s', rowLoop mem size (j : Int) s = .ok s' ∧
        (s'.Sized w h ∧ ∀ x y, x < w → y < h → j ≤ y → pixAt s'.Pix (y * w + x) = col x y) := by
    intro j hj s hinv
    obtain ⟨hsz, hpix⟩ := hinv
    obtain ⟨r, hr, hrs, hrp⟩ := rowLoop_spec mem size w h j (fun x => col x j) hj
      (fun x hx => hcol x j hx hj) s hsz
    refine ⟨r, hr, hrs, fun x y hx hy hjy => ?_⟩
    rw [hrp x y hx hy]
    by_cases hc : y = j
    · rw [if_pos hc, hc]
    · rw [if_neg hc]
      exact hpix x y hx hy (by omega)
  obtain ⟨r, hr, hsz, hpix⟩ := loopDown_inv (rowLoop mem size)
    (fun j s => s.Sized w h ∧ ∀ x y, x < w → y < h → j ≤ y → pixAt s.Pix (y * w + x) = col x y)
    h hstep img ⟨hs, fun x y _ hy hjy => by omega⟩
  exact ⟨r, hr, hsz, fun x y hx hy => hpix x y hx hy (Nat.zero_le y)⟩

/-! ## The 32 bit case on a sized target: when it stops -/

theorem rowLoop_fails (mem : List Nat) (size : Nat) (w h : Nat) (y : Int) (x : Nat)
    (hx : x < w) (f : Fault) (hf : pixelColor mem size y (x : Int) = .error f)
    (img : NRGBA) (hs : img.Sized w h) :
    ∃ g, rowLoop mem size y img = .error g := by
  rw [rowLoop_sized mem size w h y img hs]
  exact loopDown_fails (pixelBody mem size y) (fun _ => True) x
    (fun _ _ _ _ _ => trivial)
    (fun s _ => ⟨f, pixelBody_error mem size y x s f hf⟩) w hx img trivial

theorem decode32_fails (mem : List Nat) (size : Nat) (w h x y : Nat)
    (hx : x < w) (hy : y < h) (f : Fault)
    (hf : pixelColor mem size (y : Int) (x : Int) = .error f)
    (img : NRGBA) (hs : img.Sized w h) :
    ∃ g, decode32 mem size img = .error g := by
  rw [decode32_sized mem size w h img hs]
  exact loopDown_fails (rowLoop mem size) (fun s => s.Sized w h) y
    (fun i s s' hs' hb => rowLoop_preserves mem size w h i s s' hs' hb)
    (fun s hs' => rowLoop_fails mem size w h y x hx f hf s hs') h hy img hs

/-! ## Reads of the pixel region: lemmas -/

theorem wrap32_range (v : Int) : -2 ^ 31 ≤ wrap32 v ∧ wrap32 v < 2 ^ 31 := by
  unfold wrap32 wrapInt
  norm_num
  omega

theorem biHeight_range (mem : List Nat) (v : Int) (h : biHeight mem = .ok v) :
    -2 ^ 31 ≤ v ∧ v < 2 ^ 31 := by
  unfold biHeight at h
  cases hr : readUint mem 8 4 with
  | error f => rw [hr] at h; cases h
  | ok u =>
    rw [hr] at h
    have hv : toInt32 u = v := Except.ok.inj h
    rw [← hv]
    exact wrap32_range _

theorem biWidth_range (mem : List Nat) (v : Int) (h : biWidth mem = .ok v) :
    -2 ^ 31 ≤ v ∧ v < 2 ^ 31 := by
  unfold biWidth at h
  cases hr : readUint mem 4 4 with
  | error f => rw [hr] at h; cases h
  | ok u =>
    rw [hr] at h
    have hv : toInt32 u = v := Except.ok.inj h
    rw [← hv]
    exact wrap32_range _

theorem srcIndex_ok (mem : List Nat) (size k : Nat) (hk : k < 2 ^ 48)
    (hlen : k < (mem.drop size).length) :
    srcIndex mem size (k : Int) = .ok ((mem.drop size).getD k 0) := by
  unfold srcIndex
  rw [if_pos ⟨by omega, by exact_mod_cast hk⟩]
  rw [List.getD_eq_getElem?_getD, List.getElem?_drop, Int.toNat_ofNat]
  rw [List.length_drop] at hlen
  rw [List.getElem?_eq_getElem (by omega)]
  rfl

theorem srcIndex_range (mem : List Nat) (size : Nat) (i : Int)
    (h : ¬ (0 ≤ i ∧ i < 2 ^ 48)) : srcIndex mem size i = .error Fault.indexOutOfRange := by
  unfold srcIndex
  rw [if_neg h]

theorem srcIndex_short (mem : List Nat) (size k : Nat) (hk : k < 2 ^ 48)
    (hlen : (mem.drop size).length ≤ k) :
    srcIndex mem size (k : Int) = .error Fault.accessViolation := by
  unfold srcIndex
  rw [if_pos ⟨by omega, by exact_mod_cast hk⟩]
  rw [Int.toNat_ofNat]
  rw [List.length_drop] at hlen
  rw [List.getElem?_eq_none (by omega)]

theorem readPixel_ok (mem : List Nat) (size o : Nat) (hcap : o + 3 < 2 ^ 48)
    (hlen : o + 3 < (mem.drop size).length) :
    readPixel mem size (o : Int) = .ok (srcColor (mem.drop size) o) := by
  have e0 : wrap64 ((o : Int) + 0) = ((o : Nat) : Int) := by
    rw [wrap64_eq _ (by omega) (by omega)]; omega
  have e1 : wrap64 ((o : Int) + 1) = ((o + 1 : Nat) : Int) := by
    rw [wrap64_eq _ (by omega) (by omega)]; omega
  have e2 : wrap64 ((o : Int) + 2) = ((o + 2 : Nat) : Int) := by
    rw [wrap64_eq _ (by omega) (by omega)]; omega
  have e3 : wrap64 ((o : Int) + 3) = ((o + 3 : Nat) : Int) := by
    rw [wrap64_eq _ (by omega) (by omega)]; omega
  unfold readPixel
  rw [e0, e1, e2, e3, srcIndex_ok mem size o (by omega) (by omega),
    srcIndex_ok mem size (o + 1) (by omega) (by omega),
    srcIndex_ok mem size (o + 2) (by omega) (by omega),
    srcIndex_ok mem size (o + 3) (by omega) (by omega)]
  rfl

theorem pixelOffset_eq (W H x y : Nat) (hH : H < 2 ^ 31) (hx : x < W) (hy : y < H)
    (hcap : 4 * W * H ≤ 2 ^ 63) :
    pixelOffset (H : Int) (W : Int) (x : Int) (y : Int) =
        (((H - 1 - y) * W * 4 + x * 4 : Nat) : Int) ∧
      (H - 1 - y) * W * 4 + x * 4 + 3 < 4 * W * H := by
  have hlt := flat_lt W H x (H - 1 - y) hx (by omega)
  have e : 4 * W * H = 4 * (H * W) := by ring
  have e' : (H - 1 - y) * W * 4 + x * 4 = 4 * ((H - 1 - y) * W + x) := by ring
  refine ⟨?_, by omega⟩
  unfold pixelOffset
  rw [wrap32_eq ((H : Int) - 1) (by omega) (by omega)]
  have hr : (H : Int) - 1 - (y : Int) = ((H - 1 - y : Nat) : Int) := by omega
  rw [hr]
  have hc : ((H - 1 - y : Nat) : Int) * (W : Int) * 4 + (x : Int) * 4 =
      (((H - 1 - y) * W * 4 + x * 4 : Nat) : Int) := by
    push_cast
    ring
  rw [hc]
  generalize (H - 1 - y) * W * 4 + x * 4 = o at *
  rw [wrap64_eq _ (by omega) (by omega)]

theorem pixelColor_ok (mem : List Nat) (size W H x y : Nat)
    (hH : biHeight mem = .ok (H : Int)) (hW : biWidth mem = .ok (W : Int))
    (hx : x < W) (hy : y < H) (hlen : 4 * W * H ≤ (mem.drop size).length)
    (hcap : 4 * W * H ≤ 2 ^ 48) :
    pixelColor mem size (y : Int) (x : Int) =
      .ok (srcColor (mem.drop size) ((H - 1 - y) * W * 4 + x * 4)) := by
  have hr := (biHeight_range mem H hH).2
  obtain ⟨ho, hb⟩ := pixelOffset_eq W H x y (by exact_mod_cast hr) hx hy (by omega)
  unfold pixelColor
  rw [hH, hW]
  show readPixel mem size (pixelOffset (H : Int) (W : Int) (x : Int) (y : Int)) = _
  rw [ho]
  exact readPixel_ok mem size _ (by omega) (by omega)

/-! ## The function as a whole: lemmas -/

theorem biSize_of_biBitCount (mem : List Nat) (bits : Nat) (h : biBitCount mem = .ok bits) :
    ∃ size, biSize mem = .ok size := by
  have hl := readUint_length mem 14 2 bits (by omega) h
  exact ⟨_, readUint_ok mem 0 4 (by omega)⟩

theorem biWidth_of_biBitCount (mem : List Nat) (bits : Nat) (h : biBitCount mem = .ok bits) :
    ∃ v, biWidth mem = .ok v := by
  have hl := readUint_length mem 14 2 bits (by omega) h
  unfold biWidth
  rw [readUint_ok mem 4 4 (by omega)]
  exact ⟨_, rfl⟩

theorem biHeight_of_biBitCount (mem : List Nat) (bits : Nat) (h : biBitCount mem = .ok bits) :
    ∃ v, biHeight mem = .ok v := by
  have hl := readUint_length mem 14 2 bits (by omega) h
  unfold biHeight
  rw [readUint_ok mem 8 4 (by omega)]
  exact ⟨_, rfl⟩

theorem readClipboard_32 (mem : List Nat) (size : Nat) (img : NRGBA)
    (hsize : biSize mem = .ok size) (hbits : biBitCount mem = .ok 32) :
    readClipboard (.locked mem) img =
      match decode32 mem size img with
      | .error f => .crashed f
      | .ok img' => .returned none img' := by
  simp only [readClipboard, hsize, hbits, if_true]

theorem readClipboard_24 (mem : List Nat) (img : NRGBA) (hbits : biBitCount mem = .ok 24) :
    readClipboard (.locked mem) img = .returned (some errUnimplemented) img := by
  obtain ⟨size, hsize⟩ := biSize_of_biBitCount mem 24 hbits
  simp [readClipboard, hsize, hbits]

theorem readClipboard_other (mem : List Nat) (bits : Nat) (img : NRGBA)
    (hbits : biBitCount mem = .ok bits) (h24 : bits ≠ 24) (h32 : bits ≠ 32) :
    readClipboard (.locked mem) img = .returned (some errUnsupported) img := by
  obtain ⟨size, hsize⟩ := biSize_of_biBitCount mem bits hbits
  simp [readClipboard, hsize, hbits, h24, h32]

theorem readClipboard_short (mem : List Nat) (img : NRGBA) (h : mem.length < 16) :
    readClipboard (.locked mem) img = .crashed Fault.accessViolation := by
  by_cases h4 : mem.length < 4
  · have hs : biSize mem = .error Fault.accessViolation := readUint_error mem 0 4 (by omega) (by omega)
    simp only [readClipboard, hs]
  · have hs : biSize mem = .ok _ := readUint_ok mem 0 4 (by omega)
    have hb : biBitCount mem = .error Fault.accessViolation :=
      readUint_error mem 14 2 (by omega) (by omega)
    simp only [readClipboard, hs, hb]

theorem readClipboard_32_spec (mem : List Nat) (size W H w h : Nat) (img : NRGBA)
    (hsize : biSize mem = .ok size) (hbits : biBitCount mem = .ok 32)
    (hW : biWidth mem = .ok (W : Int)) (hH : biHeight mem = .ok (H : Int))
    (hw : w ≤ W) (hh : h ≤ H) (hlen : 4 * W * H ≤ (mem.drop size).length)
    (hcap : 4 * W * H ≤ 2 ^ 48) (hs : img.Sized w h) :
    ∃ r, readClipboard (.locked mem) img = .returned none r ∧ r.Sized w h ∧
      ∀ x y, x < w → y < h →
        r.NRGBAAt (x : Int) (y : Int) =
          .ok (srcColor (mem.drop size) ((H - 1 - y) * W * 4 + x * 4)) := by
  obtain ⟨r, hr, hrs, hpix⟩ := decode32_spec mem size w h
    (fun x y => srcColor (mem.drop size) ((H - 1 - y) * W * 4 + x * 4))
    (fun x y hx hy => pixelColor_ok mem size W H x y hH hW (by omega) (by omega) hlen hcap)
    img hs
  refine ⟨r, ?_, hrs, fun x y hx hy => ?_⟩
  · rw [readClipboard_32 mem size img hsize hbits, hr]
  · rw [nrgbaAt_sized r w h x y hrs hx hy, hpix x y hx hy]

theorem readClipboard_32_fails (mem : List Nat) (size w h x y : Nat) (img : NRGBA)
    (hsize : biSize mem = .ok size) (hbits : biBitCount mem = .ok 32)
    (hs : img.Sized w h) (hx : x < w) (hy : y < h) (f : Fault)
    (hf : pixelColor mem size (y : Int) (x : Int) = .error f) :
    ∃ g, readClipboard (.locked mem) img = .crashed g := by
  obtain ⟨g, hg⟩ := decode32_fails mem size w h x y hx hy f hf img hs
  exact ⟨g, by rw [readClipboard_32 mem size img hsize hbits, hg]⟩

theorem readClipboard_error_cases (mem : List Nat) (img r : NRGBA) (err : Error)
    (h : readClipboard (.locked mem) img = .returned (some err) r) :
    r = img ∧ (err = errUnimplemented ∨ err = errUnsupported) := by
  simp only [readClipboard] at h
  split at h
  · cases h
  · split at h
    · cases h
    · split at h
      · split at h
        · cases h
        · cases h
      · split at h
        · cases h
          exact ⟨rfl, Or.inl rfl⟩
        · cases h
          exact ⟨rfl, Or.inr rfl⟩

/-! ## Two targets of one size -/

theorem RelOut_mono {σ : Type} (R R' : σ → σ → Prop) (hm : ∀ a b, R a b → R' a b)
    (x y : Except Fault σ) (h : RelOut R x y) : RelOut R' x y := by
  cases x with
  | error f =>
    cases y with
    | error g => exact h
    | ok b => exact h
  | ok a =>
    cases y with
    | error g => exact h
    | ok b => exact hm a b h

theorem RelOut_eq {σ : Type} (x y : Except Fault σ) (h : RelOut (fun a b => a = b) x y) :
    x = y := by
  cases x with
  | error f =>
    cases y with
    | error g => exact congrArg Except.error h
    | ok b => exact h.elim
  | ok a =>
    cases y with
    | error g => exact h.elim
    | ok b => exact congrArg Except.ok h

theorem drop_set4 (l1 l2 : List Nat) (n : Nat) (c : Color) (hlen : l1.length = l2.length)
    (hn : n + 4 ≤ l1.length) (h : l1.drop (n + 4) = l2.drop (n + 4)) :
    (set4 l1 n c).drop n = (set4 l2 n c).drop n := by
  apply List.ext_getElem?
  intro j
  rw [List.getElem?_drop, List.getElem?_drop]
  obtain ⟨a0, a1, a2, a3⟩ := getElem?_set4_in l1 n c hn
  obtain ⟨b0, b1, b2, b3⟩ := getElem?_set4_in l2 n c (by omega)
  by_cases hj : j < 4
  · interval_cases j
    · rw [Nat.add_zero, a0, b0]
    · rw [a1, b1]
    · rw [a2, b2]
    · rw [a3, b3]
  · rw [getElem?_set4_out l1 n (n + j) c (by omega),
      getElem?_set4_out l2 n (n + j) c (by omega)]
    have hj4 := congrArg (fun l => l[j - 4]?) h
    simp only [List.getElem?_drop] at hj4
    have e : n + 4 + (j - 4) = n + j := by omega
    rw [e] at hj4
    exact hj4

theorem rowLoop_rel (mem : List Nat) (size : Nat) (w h y : Nat) (hy : y < h)
    (s t : NRGBA) (hs : s.Sized w h) (ht : t.Sized w h)
    (hd : s.Pix.drop (4 * (y * w + w)) = t.Pix.drop (4 * (y * w + w))) :
    RelOut (fun a b => a.Sized w h ∧ b.Sized w h ∧
        a.Pix.drop (4 * (y * w + 0)) = b.Pix.drop (4 * (y * w + 0)))
      (rowLoop mem size (y : Int) s) (rowLoop mem size (y : Int) t) := by
  rw [rowLoop_sized mem size w h y s hs, rowLoop_sized mem size w h y t ht]
  refine loopDown_rel (pixelBody mem size (y : Int))
    (fun i a b => a.Sized w h ∧ b.Sized w h ∧
      a.Pix.drop (4 * (y * w + i)) = b.Pix.drop (4 * (y * w + i))) w ?_ s t ⟨hs, ht, hd⟩
  intro i hi a b hr
  obtain ⟨ha, hb, hab⟩ := hr
  cases hc : pixelColor mem size (y : Int) (i : Int) with
  | error f =>
    rw [pixelBody_error mem size y i a f hc, pixelBody_error mem size y i b f hc]
    exact rfl
  | ok c =>
    have hlt := flat_lt w h i y hi hy
    have hla : a.Pix.length = 4 * (h * w) := by rw [ha.2.2]; ring
    have hlb : b.Pix.length = 4 * (h * w) := by rw [hb.2.2]; ring
    rw [pixelBody_ok mem size y i a c hc, pixelBody_ok mem size y i b c hc,
      setNRGBA_sized a w h i y c ha hi hy, setNRGBA_sized b w h i y c hb hi hy]
    refine ⟨⟨ha.1, ha.2.1, ?_⟩, ⟨hb.1, hb.2.1, ?_⟩, ?_⟩
    · show (set4 a.Pix (4 * (y * w + i)) c).length = 4 * w * h
      rw [length_set4]
      exact ha.2.2
    · show (set4 b.Pix (4 * (y * w + i)) c).length = 4 * w * h
      rw [length_set4]
      exact hb.2.2
    · show (set4 a.Pix (4 * (y * w + i)) c).drop (4 * (y * w + i)) =
        (set4 b.Pix (4 * (y * w + i)) c).drop (4 * (y * w + i))
      have e : 4 * (y * w + (i + 1)) = 4 * (y * w + i) + 4 := by ring
      rw [e] at hab
      exact drop_set4 a.Pix b.Pix _ c (by omega) (by omega) hab

theorem decode32_rel (mem : List Nat) (size : Nat) (w h : Nat) (s t : NRGBA)
    (hs : s.Sized w h) (ht : t.Sized w h) :
    decode32 mem size s = decode32 mem size t := by
  rw [decode32_sized mem size w h s hs, decode32_sized mem size w h t ht]
  apply RelOut_eq
  have hls : s.Pix.length = 4 * (h * w) := by rw [hs.2.2]; ring
  have hlt : t.Pix.length = 4 * (h * w) := by rw [ht.2.2]; ring
  have key := loopDown_rel (rowLoop mem size)
    (fun j a b => a.Sized w h ∧ b.Sized w h ∧
      a.Pix.drop (4 * (j * w)) = b.Pix.drop (4 * (j * w))) h
    (fun j hj a b hr => by
      obtain ⟨ha, hb, hab⟩ := hr
      have e : 4 * ((j + 1) * w) = 4 * (j * w + w) := by ring
      rw [e] at hab
      exact RelOut_mono _ _ (fun a' b' hr' => ⟨hr'.1, hr'.2.1, hr'.2.2⟩) _ _
        (rowLoop_rel mem size w h j hj a b ha hb hab))
    s t ⟨hs, ht, by
      rw [List.drop_eq_nil_of_le (by omega), List.drop_eq_nil_of_le (by omega)]⟩
  refine RelOut_mono _ _ (fun a b hr => ?_) _ _ key
  obtain ⟨ha, hb, hab⟩ := hr
  simp only [Nat.zero_mul, Nat.mul_zero, List.drop_zero] at hab
  cases a
  cases b
  simp only [NRGBA.mk.injEq]
  exact ⟨hab, ha.2.1.trans hb.2.1.symm, ha.1.trans hb.1.symm⟩

theorem readClipboard_sized_eq (mem : List Nat) (w h : Nat) (s t : NRGBA)
    (hbits : biBitCount mem = .ok 32) (hs : s.Sized w h) (ht : t.Sized w h) :
    readClipboard (.locked mem) s = readClipboard (.locked mem) t := by
  obtain ⟨size, hsize⟩ := biSize_of_biBitCount mem 32 hbits
  rw [readClipboard_32 mem size s hsize hbits, readClipboard_32 mem size t hsize hbits,
    decode32_rel mem size w h s t hs ht]

/-! ## Buffers that differ outside what the decoder reads -/

theorem srcIndex_congr (mem1 mem2 : List Nat) (size : Nat)
    (h : mem1.drop size = mem2.drop size) (i : Int) :
    srcIndex mem1 size i = srcIndex mem2 size i := by
  unfold srcIndex
  rw [← List.getElem?_drop, ← List.getElem?_drop, h]

theorem pixelBody_congr (mem1 mem2 : List Nat) (size : Nat)
    (hwidth : biWidth mem1 = biWidth mem2) (hheight : biHeight mem1 = biHeight mem2)
    (h : mem1.drop size = mem2.drop size) :
    pixelBody mem1 size = pixelBody mem2 size := by
  funext y x img
  unfold pixelBody readPixel
  simp only [hwidth, hheight, srcIndex_congr mem1 mem2 size h]

theorem decode32_congr (mem1 mem2 : List Nat) (size : Nat) (img : NRGBA)
    (hwidth : biWidth mem1 = biWidth mem2) (hheight : biHeight mem1 = biHeight mem2)
    (h : mem1.drop size = mem2.drop size) :
    decode32 mem1 size img = decode32 mem2 size img := by
  have hrow : rowLoop mem1 size = rowLoop mem2 size := by
    funext y s
    unfold rowLoop
    rw [pixelBody_congr mem1 mem2 size hwidth hheight h]
  unfold decode32
  rw [hrow]

/-! ## The claims -/

/-- C6: for every header whose bit count is neither 24 nor 32, whatever the
other fields, the pixel bytes and the target, `readClipboard` returns the error
"unsuported bit depth" and the target image is the one it was before the call. -/
theorem unsupported_depth_leaves_target (mem : List Nat) (bits : Nat) (img : NRGBA)
    (hbits : biBitCount mem = .ok bits) (h24 : bits ≠ 24) (h32 : bits ≠ 32) :
    readClipboard (.locked mem) img = .returned (some errUnsupported) img :=
  readClipboard_other mem bits img hbits h24 h32

/-- Witness of C6: an 8 bit header and the used 2 x 2 target. -/
theorem unsupported_depth_leaves_target_witness :
    biBitCount (headerBytes 2 2 8) = .ok 8 ∧
      readClipboard (.locked (headerBytes 2 2 8)) usedTarget =
        .returned (some errUnsupported) usedTarget :=
  ⟨by decide, unsupported_depth_leaves_target (headerBytes 2 2 8) 8 usedTarget
    (by decide) (by decide) (by decide)⟩

/-- C7: for every header with bit count 24, whatever the width, height, pixel
bytes and target, `readClipboard` returns the error "unimplemented, ..." (which is
not the unsupported-bit-depth error) and the target image is unchanged. -/
theorem unimplemented_24_leaves_target (mem : List Nat) (img : NRGBA)
    (hbits : biBitCount mem = .ok 24) :
    readClipboard (.locked mem) img = .returned (some errUnimplemented) img ∧
      errUnimplemented ≠ errUnsupported :=
  ⟨readClipboard_24 mem img hbits, by decide⟩

/-- Witness of C7: a 24 bit header and the used 2 x 2 target. -/
theorem unimplemented_24_leaves_target_witness :
    biBitCount (headerBytes 2 2 24) = .ok 24 ∧
      readClipboard (.locked (headerBytes 2 2 24)) usedTarget =
        .returned (some errUnimplemented) usedTarget :=
  ⟨by decide, (unimplemented_24_leaves_target (headerBytes 2 2 24) usedTarget (by decide)).1⟩

/-- C8: two buffers that agree on `biSize`, `biWidth`, `biHeight`, `biBitCount`
and on the pixel region (the bytes from offset `biSize` on), and that may differ
in every other header field (`biCompression`, `biPlanes`, `biSizeImage`,
`biXPelsPerMeter`, `biYPelsPerMeter`, `biClrUsed`, `biClrImportant`), decode into
equal targets with the same outcome: the same error or success and the same
image. -/
theorem decode_ignores_unread_fields (mem1 mem2 : List Nat) (size : Nat) (img : NRGBA)
    (hsize1 : biSize mem1 = .ok size) (hsize2 : biSize mem2 = .ok size)
    (hwidth : biWidth mem1 = biWidth mem2) (hheight : biHeight mem1 = biHeight mem2)
    (hbits : biBitCount mem1 = biBitCount mem2)
    (hpix : mem1.drop size = mem2.drop size) :
    readClipboard (.locked mem1) img = readClipboard (.locked mem2) img := by
  simp only [readClipboard, hsize1, hsize2, hbits,
    decode32_congr mem1 mem2 size img hwidth hheight hpix]

/-- Witness of C8: the 2 x 2 example and the same buffer with other values in
`biPlanes`, `biCompression` and the five fields after it. -/
theorem decode_ignores_unread_fields_witness :
    exampleMem ≠ exampleMemAlt ∧
      readClipboard (.locked exampleMem) usedTarget =
        readClipboard (.locked exampleMemAlt) usedTarget :=
  ⟨by decide, decode_ignores_unread_fields exampleMem exampleMemAlt 40 usedTarget
    (by decide) (by decide) (by decide) (by decide) (by decide) (by decide)⟩

/-- C9: nothing of a target's earlier contents survives a 32 bit decode: for
every buffer with bit count 32 and any two targets of one size `W` x `H`, whatever
bytes they hold, `readClipboard` ends the same way on both, and when it returns
`nil` both targets are left as the same image (every pixel is overwritten). -/
theorem decode_overwrites_target (mem : List Nat) (W H : Nat) (img1 img2 : NRGBA)
    (hbits : biBitCount mem = .ok 32) (h1 : img1.Sized W H) (h2 : img2.Sized W H) :
    readClipboard (.locked mem) img1 = readClipboard (.locked mem) img2 ∧
      ∀ r, readClipboard (.locked mem) img1 = .returned none r →
        readClipboard (.locked mem) img2 = .returned none r := by
  have he := readClipboard_sized_eq mem W H img1 img2 hbits h1 h2
  exact ⟨he, fun r hr => by rw [← he]; exact hr⟩

/-- Witness of C9: the 2 x 2 example decoded into a fresh and into a used
target; both decodes return `nil`. -/
theorem decode_overwrites_target_witness :
    zeroNRGBA 2 2 ≠ usedTarget ∧
      (∃ r, readClipboard (.locked exampleMem) (zeroNRGBA 2 2) = .returned none r) ∧
      readClipboard (.locked exampleMem) (zeroNRGBA 2 2) =
        readClipboard (.locked exampleMem) usedTarget :=
  ⟨by decide,
    ⟨⟨[0, 0, 255, 255, 255, 255, 255, 255, 255, 0, 0, 255, 0, 255, 0, 255], 8, Rect0 2 2⟩,
      by decide⟩,
    (decode_overwrites_target exampleMem 2 2 (zeroNRGBA 2 2) usedTarget
      (by decide) (by decide) (by decide)).1⟩

/-- C2, the claim refuted: decoding the 2 x 2 example gives the top left pixel
(R, G, B, A) = (00, 00, FF, FF) and the bottom left pixel (FF, 00, 00, FF); the
claim has these two the other way round. -/
theorem example_claimed_rows_wrong :
    readClipboard (.locked exampleMem) (zeroNRGBA 2 2) = .returned none exampleOut ∧
      exampleOut.NRGBAAt 0 0 ≠ .ok ⟨0xFF, 0x00, 0x00, 0xFF⟩ ∧
      exampleOut.NRGBAAt 0 1 ≠ .ok ⟨0x00, 0x00, 0xFF, 0xFF⟩ := by
  decide

/-- C2, amended: decoding the 2 x 2 example into any 2 x 2 target returns `nil`
and leaves, in (R, G, B, A) order, the top row `[00,00,FF,FF], [FF,FF,FF,FF]` and
the bottom row `[FF,00,00,FF], [00,FF,00,FF]`. -/
theorem example_decodes (img : NRGBA) (hs : img.Sized 2 2) :
    ∃ r, readClipboard (.locked exampleMem) img = .returned none r ∧
      r.NRGBAAt 0 0 = .ok ⟨0x00, 0x00, 0xFF, 0xFF⟩ ∧
      r.NRGBAAt 1 0 = .ok ⟨0xFF, 0xFF, 0xFF, 0xFF⟩ ∧
      r.NRGBAAt 0 1 = .ok ⟨0xFF, 0x00, 0x00, 0xFF⟩ ∧
      r.NRGBAAt 1 1 = .ok ⟨0x00, 0xFF, 0x00, 0xFF⟩ := by
  refine ⟨exampleOut, ?_, by decide, by decide, by decide, by decide⟩
  rw [readClipboard_sized_eq exampleMem 2 2 img (zeroNRGBA 2 2) (by decide) hs (by decide)]
  decide

/-- Witness of C2, amended: the used 2 x 2 target. -/
theorem example_decodes_witness :
    usedTarget.Sized 2 2 ∧
      ∃ r, readClipboard (.locked exampleMem) usedTarget = .returned none r ∧
        r.NRGBAAt 0 0 = .ok ⟨0x00, 0x00, 0xFF, 0xFF⟩ ∧
        r.NRGBAAt 1 0 = .ok ⟨0xFF, 0xFF, 0xFF, 0xFF⟩ ∧
        r.NRGBAAt 0 1 = .ok ⟨0xFF, 0x00, 0x00, 0xFF⟩ ∧
        r.NRGBAAt 1 1 = .ok ⟨0x00, 0xFF, 0x00, 0xFF⟩ :=
  ⟨by decide, example_decodes usedTarget (by decide)⟩

/-- C4, the claim refuted: the header declares 2 x 1 pixels, the target is
1 x 1; `readClipboard` returns `nil`, not an error, and has written the pixel. -/
theorem mismatch_decodes :
    biWidth wideMem = .ok 2 ∧ biHeight wideMem = .ok 1 ∧ (zeroNRGBA 1 1).Sized 1 1 ∧
      readClipboard (.locked wideMem) (zeroNRGBA 1 1) =
        .returned none ⟨[30, 20, 10, 40], 4, Rect0 1 1⟩ ∧
      zeroNRGBA 1 1 ≠ ⟨[30, 20, 10, 40], 4, Rect0 1 1⟩ := by
  decide

/-- C4, amended: `readClipboard` compares no dimensions.  With a 32 bit header
of `W` x `H` pixels (`4*W*H ≤ 2^48`), a pixel region of at least `4*W*H` bytes
and a target of size `w` x `h` with `w ≤ W` and `h ≤ H`, equal or not, it returns
`nil` and every target pixel `(x, y)` holds the source pixel at offset
`(H-1-y)*W*4 + x*4`.  Whenever it returns an error, for any buffer and target,
the error is one of the two bit depth errors and the target is unmodified. -/
theorem decode_into_smaller_target (mem : List Nat) (size W H w h : Nat) (img : NRGBA)
    (hsize : biSize mem = .ok size) (hbits : biBitCount mem = .ok 32)
    (hW : biWidth mem = .ok (W : Int)) (hH : biHeight mem = .ok (H : Int))
    (hw : w ≤ W) (hh : h ≤ H) (hlen : 4 * W * H ≤ (mem.drop size).length)
    (hcap : 4 * W * H ≤ 2 ^ 48) (hs : img.Sized w h) :
    (∃ r, readClipboard (.locked mem) img = .returned none r ∧ r.Sized w h ∧
      ∀ x y, x < w → y < h →
        r.NRGBAAt (x : Int) (y : Int) =
          .ok (srcColor (mem.drop size) ((H - 1 - y) * W * 4 + x * 4))) ∧
      ∀ (mem' : List Nat) (tgt r : NRGBA) (err : Error),
        readClipboard (.locked mem') tgt = .returned (some err) r →
          r = tgt ∧ (err = errUnimplemented ∨ err = errUnsupported) :=
  ⟨readClipboard_32_spec mem size W H w h img hsize hbits hW hH hw hh hlen hcap hs,
    fun mem' tgt r err he => readClipboard_error_cases mem' tgt r err he⟩

/-- Witness of C4, amended: the 2 x 1 header and a 1 x 1 target. -/
theorem decode_into_smaller_target_witness :
    ∃ r, readClipboard (.locked wideMem) (zeroNRGBA 1 1) = .returned none r ∧
      r.Sized 1 1 ∧
      ∀ x y : Nat, x < 1 → y < 1 →
        r.NRGBAAt (x : Int) (y : Int) =
          .ok (srcColor (wideMem.drop 40) ((1 - 1 - y) * 2 * 4 + x * 4)) :=
  (decode_into_smaller_target wideMem 40 2 1 1 1 (zeroNRGBA 1 1) (by decide) (by decide)
    (by decide) (by decide) (by decide) (by decide) (by decide) (by norm_num) (by decide)).1

/-- C10, the claim refuted: with `W = H = 2^31 - 1` and a 1 x 1 target the
offset computed for `x = 0`, `y = 0` overflows `int` and is negative, and the
decode stops at the index check. -/
theorem offset_overflows :
    pixelOffset (2 ^ 31 - 1) (2 ^ 31 - 1) 0 0 = -25769803768 ∧
      biWidth (headerBytes (2 ^ 31 - 1) (2 ^ 31 - 1) 32) = .ok (2 ^ 31 - 1) ∧
      biHeight (headerBytes (2 ^ 31 - 1) (2 ^ 31 - 1) 32) = .ok (2 ^ 31 - 1) ∧
      readClipboard (.locked (headerBytes (2 ^ 31 - 1) (2 ^ 31 - 1) 32)) (zeroNRGBA 1 1) =
        .crashed Fault.indexOutOfRange := by
  decide

/-- C10, amended: with `0 < W, H < 2^31` (the header fields are `int32`) and
`4*W*H ≤ 2^63`, for every target of size `w` x `h` with `w ≤ W`, `h ≤ H` every
offset computed for `x < w`, `y < h` satisfies `0 ≤ o` and `o + 3 < 4*W*H`; and
for every target with `h > H`, and for every target with `w > W` and `h = H`,
some computed offset falls outside `[0, 4*W*H)`. -/
theorem offsets_within_region (W H : Nat) (hW : 0 < W) (hH : 0 < H)
    (hW32 : W < 2 ^ 31) (hH32 : H < 2 ^ 31) :
    (4 * W * H ≤ 2 ^ 63 → ∀ w h x y : Nat, w ≤ W → h ≤ H → x < w → y < h →
      0 ≤ pixelOffset (H : Int) (W : Int) (x : Int) (y : Int) ∧
        pixelOffset (H : Int) (W : Int) (x : Int) (y : Int) + 3 < ((4 * W * H : Nat) : Int)) ∧
    (∀ w h : Nat, 0 < w → H < h → ∃ x y : Nat, x < w ∧ y < h ∧
      ¬ (0 ≤ pixelOffset (H : Int) (W : Int) (x : Int) (y : Int) ∧
        pixelOffset (H : Int) (W : Int) (x : Int) (y : Int) < ((4 * W * H : Nat) : Int))) ∧
    (∀ w : Nat, W < w → ∃ x y : Nat, x < w ∧ y < H ∧
      ¬ (0 ≤ pixelOffset (H : Int) (W : Int) (x : Int) (y : Int) ∧
        pixelOffset (H : Int) (W : Int) (x : Int) (y : Int) < ((4 * W * H : Nat) : Int))) := by
  have hP : W * H < 2 ^ 31 * 2 ^ 31 := Nat.mul_lt_mul'' hW32 hH32
  refine ⟨fun hcap w h x y hw hh hx hy => ?_, fun w h hw hh => ?_, fun w hw => ?_⟩
  · obtain ⟨ho, hb⟩ := pixelOffset_eq W H x y hH32 (by omega) (by omega) hcap
    rw [ho]
    constructor
    · exact Int.natCast_nonneg _
    · exact_mod_cast hb
  · refine ⟨0, H, hw, hh, ?_⟩
    unfold pixelOffset
    rw [wrap32_eq ((H : Int) - 1) (by omega) (by omega)]
    have e : ((H : Int) - 1 - (H : Int)) * (W : Int) * 4 + ((0 : Nat) : Int) * 4 =
        -(4 * (W : Int)) := by
      push_cast
      ring
    rw [e, wrap64_eq _ (by omega) (by omega)]
    omega
  · refine ⟨W, 0, hw, hH, ?_⟩
    unfold pixelOffset
    rw [wrap32_eq ((H : Int) - 1) (by omega) (by omega)]
    have e : ((H : Int) - 1 - ((0 : Nat) : Int)) * (W : Int) * 4 + (W : Int) * 4 =
        4 * ((W * H : Nat) : Int) := by
      push_cast
      ring
    have e' : ((4 * W * H : Nat) : Int) = 4 * ((W * H : Nat) : Int) := by
      push_cast
      ring
    rw [e, e']
    generalize W * H = P at hP
    unfold wrap64 wrapInt
    norm_num
    omega

/-- Witness of C10, amended: `W = H = 2`, a 2 x 2 target, pixel `(1, 0)`: the
offset is 12 and `12 + 3 < 16`. -/
theorem offsets_within_region_witness :
    4 * 2 * 2 ≤ 2 ^ 63 ∧
      pixelOffset ((2 : Nat) : Int) ((2 : Nat) : Int) ((1 : Nat) : Int) ((0 : Nat) : Int) = 12 ∧
      0 ≤ pixelOffset ((2 : Nat) : Int) ((2 : Nat) : Int) ((1 : Nat) : Int) ((0 : Nat) : Int) ∧
      pixelOffset ((2 : Nat) : Int) ((2 : Nat) : Int) ((1 : Nat) : Int) ((0 : Nat) : Int) + 3 <
        ((4 * 2 * 2 : Nat) : Int) :=
  ⟨by norm_num, by decide,
    (offsets_within_region 2 2 (by decide) (by decide) (by norm_num) (by norm_num)).1
      (by norm_num) 2 2 1 0 (by decide) (by decide) (by decide) (by decide)⟩

/-! ### The 32 bit case beyond the length of `src` -/

theorem readPixel_range (mem : List Nat) (size : Nat) (o : Int)
    (hr : -2 ^ 63 ≤ o ∧ o < 2 ^ 63) (h : ¬ (0 ≤ o ∧ o < 2 ^ 48)) :
    readPixel mem size o = .error Fault.indexOutOfRange := by
  have e : wrap64 (o + 0) = o := by
    rw [wrap64_eq _ (by omega) (by omega)]
    omega
  unfold readPixel
  rw [e, srcIndex_range mem size o h]
  rfl

theorem pixelColor_beyond (mem : List Nat) (size W H : Nat)
    (hH : biHeight mem = .ok (H : Int)) (hW : biWidth mem = .ok (W : Int))
    (hWpos : 0 < W) (hHpos : 0 < H) (hbig : 2 ^ 48 < 4 * W * H) :
    pixelColor mem size ((0 : Nat) : Int) ((W - 1 : Nat) : Int) =
      .error Fault.indexOutOfRange := by
  have hH32 := (biHeight_range mem H hH).2
  have hW32 := (biWidth_range mem W hW).2
  have hP : W * H < 2 ^ 31 * 2 ^ 31 :=
    Nat.mul_lt_mul'' (by exact_mod_cast hW32) (by exact_mod_cast hH32)
  unfold pixelColor
  rw [hH, hW]
  show readPixel mem size (pixelOffset (H : Int) (W : Int) ((W - 1 : Nat) : Int)
    ((0 : Nat) : Int)) = _
  apply readPixel_range
  · exact wrap64_range _
  · unfold pixelOffset
    rw [wrap32_eq ((H : Int) - 1) (by omega) (by omega)]
    have e : ((H : Int) - 1 - ((0 : Nat) : Int)) * (W : Int) * 4 + ((W - 1 : Nat) : Int) * 4 =
        4 * ((W * H : Nat) : Int) - 4 := by
      rw [Nat.cast_sub hWpos]
      push_cast
      ring
    have e' : 4 * W * H = 4 * (W * H) := by ring
    rw [e]
    rw [e'] at hbig
    generalize W * H = P at hP hbig
    exact wrap64_high _ (by omega) (by omega)

theorem readClipboard_beyond (mem : List Nat) (size W H : Nat) (img : NRGBA)
    (hsize : biSize mem = .ok size) (hbits : biBitCount mem = .ok 32)
    (hW : biWidth mem = .ok (W : Int)) (hH : biHeight mem = .ok (H : Int))
    (hWpos : 0 < W) (hHpos : 0 < H) (hs : img.Sized W H) (hbig : 2 ^ 48 < 4 * W * H) :
    ∃ f, readClipboard (.locked mem) img = .crashed f :=
  readClipboard_32_fails mem size W H (W - 1) 0 img hsize hbits hs (by omega) hHpos _
    (pixelColor_beyond mem size W H hH hW hWpos hHpos hbig)

theorem headerBytes_length (width height bits : Nat) :
    (headerBytes width height bits).length = 40 := rfl

theorem zeroNRGBA_sized (w h : Nat) : (zeroNRGBA w h).Sized w h :=
  ⟨rfl, rfl, List.length_replicate _ _⟩

theorem allocated_cap (img : NRGBA) (w h : Nat) (hs : img.Allocated w h) :
    4 * w * h ≤ 2 ^ 48 := by
  have hl := hs.2
  rw [hs.1.2.2] at hl
  exact hl

theorem newNRGBA_ok (w h : Nat) (hc : 4 * w * h ≤ maxAlloc) :
    NewNRGBA w h = .ok (zeroNRGBA w h) ∧ (zeroNRGBA w h).Allocated w h := by
  refine ⟨?_, zeroNRGBA_sized w h, ?_⟩
  · unfold NewNRGBA
    rw [if_pos hc]
  · rw [(zeroNRGBA_sized w h).2.2]
    exact hc

/-- C1: for every header with bit count 32, width `W > 0` and height `H > 0`,
every pixel region `src` of at least `4*W*H` bytes and every target of size
`W` x `H`, `readClipboard` returns `nil` and every output pixel `(x, y)` has
`R = src[o+2]`, `G = src[o+1]`, `B = src[o+0]`, `A = src[o+3]` with
`o = (H-1-y)*W*4 + x*4`; output row 0 is the buffer's row `H-1` and output row
`H-1` is the buffer's row 0.  (`mem` is the buffer with whatever is readable
behind it, `mem.drop size` is `src`; a target of a Go process holds no more than
`maxAlloc = 2^48` bytes, so every offset passes the index check of `src`.) -/
theorem decode32_flips_and_swaps (mem : List Nat) (size W H : Nat) (img : NRGBA)
    (hsize : biSize mem = .ok size) (hbits : biBitCount mem = .ok 32)
    (hW : biWidth mem = .ok (W : Int)) (hH : biHeight mem = .ok (H : Int))
    (_hWpos : 0 < W) (hHpos : 0 < H) (hlen : 4 * W * H ≤ (mem.drop size).length)
    (hs : img.Allocated W H) :
    ∃ r, readClipboard (.locked mem) img = .returned none r ∧
      (∀ x y : Nat, x < W → y < H →
        r.NRGBAAt (x : Int) (y : Int) =
          .ok { R := (mem.drop size).getD ((H - 1 - y) * W * 4 + x * 4 + 2) 0,
                G := (mem.drop size).getD ((H - 1 - y) * W * 4 + x * 4 + 1) 0,
                B := (mem.drop size).getD ((H - 1 - y) * W * 4 + x * 4) 0,
                A := (mem.drop size).getD ((H - 1 - y) * W * 4 + x * 4 + 3) 0 }) ∧
      (∀ x : Nat, x < W →
        r.NRGBAAt (x : Int) 0 = .ok (srcColor (mem.drop size) ((H - 1) * W * 4 + x * 4))) ∧
      (∀ x : Nat, x < W →
        r.NRGBAAt (x : Int) ((H - 1 : Nat) : Int) =
          .ok (srcColor (mem.drop size) (0 * W * 4 + x * 4))) := by
  obtain ⟨r, hr, -, hpix⟩ := readClipboard_32_spec mem size W H W H img hsize hbits hW hH
    (Nat.le_refl W) (Nat.le_refl H) hlen (allocated_cap img W H hs) hs.1
  refine ⟨r, hr, fun x y hx hy => hpix x y hx hy, fun x hx => ?_, fun x hx => ?_⟩
  · exact hpix x 0 hx hHpos
  · have h := hpix x (H - 1) hx (by omega)
    have e : H - 1 - (H - 1) = 0 := by omega
    rw [e] at h
    exact h

/-- Witness of C1: a 2 x 2 bitmap decoded into a used 2 x 2 target.  Output row 0
is buffer row 1 and output row 1 is buffer row 0; the source pixel
`[B=10, G=20, R=30, A=40]` of buffer row 0 is the output pixel `(0, 1)` with
`R=30, G=20, B=10, A=40`. -/
theorem decode32_flips_and_swaps_witness :
    usedTarget.Allocated 2 2 ∧
      ∃ r, readClipboard (.locked flipMem) usedTarget = .returned none r ∧
        r.NRGBAAt 0 0 = .ok { R := 70, G := 60, B := 50, A := 80 } ∧
        r.NRGBAAt 1 0 = .ok { R := 71, G := 61, B := 51, A := 81 } ∧
        r.NRGBAAt 0 1 = .ok { R := 30, G := 20, B := 10, A := 40 } ∧
        r.NRGBAAt 1 1 = .ok { R := 31, G := 21, B := 11, A := 41 } := by
  obtain ⟨r, hr, hpix, -, -⟩ := decode32_flips_and_swaps flipMem 40 2 2 usedTarget
    (by decide) (by decide) (by decide) (by decide) (by decide) (by decide) (by decide)
    (by decide)
  exact ⟨by decide, r, hr, hpix 0 0 (by decide) (by decide), hpix 1 0 (by decide) (by decide),
    hpix 0 1 (by decide) (by decide), hpix 1 1 (by decide) (by decide)⟩

/-! ### The 32 bit case on a pixel region that is too short -/

theorem loopDown_fails_with {σ : Type} (body : Int → σ → Except Fault σ) (I : σ → Prop)
    (P : Fault → Prop) (k N : Nat)
    (hpres : ∀ (i : Nat) s s', I s → body (i : Int) s = .ok s' → I s')
    (hfail : ∀ s, I s → ∃ f, body (k : Int) s = .error f)
    (hP : ∀ (i : Nat) s f, i < N → I s → body (i : Int) s = .error f → P f) :
    ∀ (n : Nat), n ≤ N → k < n → ∀ s, I s → ∃ f, loopDown body n s = .error f ∧ P f
  | 0, _, hk, _, _ => absurd hk (Nat.not_lt_zero k)
  | n + 1, hn, hk, s, hs => by
    cases hb : body (n : Int) s with
    | error f => exact ⟨f, loopDown_succ_error body n s f hb, hP n s f (by omega) hs hb⟩
    | ok s1 =>
      rw [loopDown_succ body n s s1 hb]
      have hkn : k < n := by
        rcases Nat.lt_succ_iff_lt_or_eq.mp hk with hlt | heq
        · exact hlt
        · subst heq
          obtain ⟨f, hf⟩ := hfail s hs
          rw [hf] at hb
          cases hb
      exact loopDown_fails_with body I P k N hpres hfail hP n (by omega) hkn s1
        (hpres n s s1 hs hb)

theorem pixelBody_error_source (mem : List Nat) (size w h x y : Nat) (img : NRGBA)
    (hs : img.Sized w h) (hx : x < w) (hy : y < h) (f : Fault)
    (he : pixelBody mem size (y : Int) (x : Int) img = .error f) :
    pixelColor mem size (y : Int) (x : Int) = .error f := by
  cases hc : pixelColor mem size (y : Int) (x : Int) with
  | error g =>
    rw [pixelBody_error mem size y x img g hc] at he
    cases he
    rfl
  | ok c =>
    rw [pixelBody_ok mem size y x img c hc, setNRGBA_sized img w h x y c hs hx hy] at he
    cases he

theorem rowLoop_fails_with (mem : List Nat) (size w h x y : Nat) (P : Fault → Prop)
    (hx : x < w) (hy : y < h) (f : Fault)
    (hf : pixelColor mem size (y : Int) (x : Int) = .error f)
    (hP : ∀ (i : Nat) g, i < w → pixelColor mem size (y : Int) (i : Int) = .error g → P g)
    (img : NRGBA) (hs : img.Sized w h) :
    ∃ g, rowLoop mem size (y : Int) img = .error g ∧ P g := by
  rw [rowLoop_sized mem size w h y img hs]
  exact loopDown_fails_with (pixelBody mem size (y : Int)) (fun s => s.Sized w h) P x w
    (fun i s s' hs' hb => pixelBody_preserves mem size w h y i s s' hs' hb)
    (fun s _ => ⟨f, pixelBody_error mem size y x s f hf⟩)
    (fun i s g hi hs' hb => hP i g hi (pixelBody_error_source mem size w h i y s hs' hi hy g hb))
    w (Nat.le_refl w) hx img hs

theorem decode32_fails_with (mem : List Nat) (size w h x y : Nat) (P : Fault → Prop)
    (hx : x < w) (hy : y < h) (f : Fault)
    (hf : pixelColor mem size (y : Int) (x : Int) = .error f)
    (hP : ∀ (i j : Nat) g, i < w → j < h →
      pixelColor mem size (j : Int) (i : Int) = .error g → P g)
    (img : NRGBA) (hs : img.Sized w h) :
    ∃ g, decode32 mem size img = .error g ∧ P g := by
  rw [decode32_sized mem size w h img hs]
  refine loopDown_fails_with (rowLoop mem size) (fun s => s.Sized w h) P y h
    (fun i s s' hs' hb => rowLoop_preserves mem size w h i s s' hs' hb)
    (fun s hs' => rowLoop_fails mem size w h y x hx f hf s hs')
    (fun j s g hj hs' hb => ?_) h (Nat.le_refl h) hy img hs
  by_contra hn
  have hall : ∀ i, i < w → ∃ c, pixelColor mem size (j : Int) (i : Int) = .ok c := by
    intro i hi
    cases hc : pixelColor mem size (j : Int) (i : Int) with
    | ok c => exact ⟨c, rfl⟩
    | error g' =>
      obtain ⟨g'', hg, hPg⟩ := rowLoop_fails_with mem size w h i j P hi hj g' hc
        (fun i' g0 hi' h0 => hP i' j g0 hi' hj h0) s hs'
      rw [hb] at hg
      cases hg
      exact absurd hPg hn
  choose col hcol using hall
  obtain ⟨r, hr, -, -⟩ := rowLoop_spec mem size w h j
    (fun i => if hi : i < w then col i hi else ⟨0, 0, 0, 0⟩) hj
    (fun i hi => by simp only [dif_pos hi]; exact hcol i hi) s hs'
  rw [hb] at hr
  cases hr

theorem readPixel_short (mem : List Nat) (size o : Nat) (hcap : o + 3 < 2 ^ 48)
    (hlen : (mem.drop size).length ≤ o + 3) :
    readPixel mem size (o : Int) = .error Fault.accessViolation := by
  have e0 : wrap64 ((o : Int) + 0) = ((o : Nat) : Int) := by
    rw [wrap64_eq _ (by omega) (by omega)]; omega
  have e1 : wrap64 ((o : Int) + 1) = ((o + 1 : Nat) : Int) := by
    rw [wrap64_eq _ (by omega) (by omega)]; omega
  have e2 : wrap64 ((o : Int) + 2) = ((o + 2 : Nat) : Int) := by
    rw [wrap64_eq _ (by omega) (by omega)]; omega
  have e3 : wrap64 ((o : Int) + 3) = ((o + 3 : Nat) : Int) := by
    rw [wrap64_eq _ (by omega) (by omega)]; omega
  unfold readPixel
  rw [e0, e1, e2, e3, srcIndex_short mem size (o + 3) (by omega) hlen]
  by_cases h0 : o < (mem.drop size).length
  · rw [srcIndex_ok mem size o (by omega) h0]
    by_cases h1 : o + 1 < (mem.drop size).length
    · rw [srcIndex_ok mem size (o + 1) (by omega) h1]
      by_cases h2 : o + 2 < (mem.drop size).length
      · rw [srcIndex_ok mem size (o + 2) (by omega) h2]
        rfl
      · rw [srcIndex_short mem size (o + 2) (by omega) (by omega)]
        rfl
    · rw [srcIndex_short mem size (o + 1) (by omega) (by omega)]
      rfl
  · rw [srcIndex_short mem size o (by omega) (by omega)]
    rfl

theorem pixelColor_error_kind (mem : List Nat) (size W H x y : Nat)
    (hH : biHeight mem = .ok (H : Int)) (hW : biWidth mem = .ok (W : Int))
    (hx : x < W) (hy : y < H) (hcap : 4 * W * H ≤ 2 ^ 48) (f : Fault)
    (he : pixelColor mem size (y : Int) (x : Int) = .error f) : f = Fault.accessViolation := by
  have hr := (biHeight_range mem H hH).2
  obtain ⟨ho, hb⟩ := pixelOffset_eq W H x y (by exact_mod_cast hr) hx hy (by omega)
  unfold pixelColor at he
  rw [hH, hW] at he
  have he' : readPixel mem size (pixelOffset (H : Int) (W : Int) (x : Int) (y : Int)) =
      .error f := he
  rw [ho] at he'
  by_cases hlen : (H - 1 - y) * W * 4 + x * 4 + 3 < (mem.drop size).length
  · rw [readPixel_ok mem size _ (by omega) hlen] at he'
    cases he'
  · rw [readPixel_short mem size _ (by omega) (by omega)] at he'
    cases he'
    rfl

theorem pixelColor_last_short (mem : List Nat) (size W H : Nat)
    (hH : biHeight mem = .ok (H : Int)) (hW : biWidth mem = .ok (W : Int))
    (hWpos : 0 < W) (hHpos : 0 < H) (hcap : 4 * W * H ≤ 2 ^ 48)
    (hlen : (mem.drop size).length < 4 * W * H) :
    pixelColor mem size ((0 : Nat) : Int) ((W - 1 : Nat) : Int) =
      .error Fault.accessViolation := by
  have hr := (biHeight_range mem H hH).2
  obtain ⟨ho, hb⟩ := pixelOffset_eq W H (W - 1) 0 (by exact_mod_cast hr) (by omega) hHpos
    (by omega)
  have e : (H - 1 - 0) * W * 4 + (W - 1) * 4 + 4 = 4 * W * H := by
    obtain ⟨W', rfl⟩ : ∃ W', W = W' + 1 := ⟨W - 1, by omega⟩
    obtain ⟨H', rfl⟩ : ∃ H', H = H' + 1 := ⟨H - 1, by omega⟩
    simp only [Nat.add_sub_cancel, Nat.sub_zero]
    ring
  unfold pixelColor
  rw [hH, hW]
  show readPixel mem size (pixelOffset (H : Int) (W : Int) ((W - 1 : Nat) : Int)
    ((0 : Nat) : Int)) = _
  rw [ho]
  exact readPixel_short mem size _ (by omega) (by omega)

theorem readClipboard_truncated (mem : List Nat) (size W H : Nat) (img : NRGBA)
    (hsize : biSize mem = .ok size) (hbits : biBitCount mem = .ok 32)
    (hW : biWidth mem = .ok (W : Int)) (hH : biHeight mem = .ok (H : Int))
    (hWpos : 0 < W) (hHpos : 0 < H) (hs : img.Sized W H)
    (hlen : (mem.drop size).length < 4 * W * H) :
    ∃ f, readClipboard (.locked mem) img = .crashed f ∧
      (4 * W * H ≤ 2 ^ 48 → f = Fault.accessViolation) := by
  by_cases hcap : 4 * W * H ≤ 2 ^ 48
  · obtain ⟨g, hg, hPg⟩ := decode32_fails_with mem size W H (W - 1) 0
      (fun f => f = Fault.accessViolation) (by omega) hHpos _
      (pixelColor_last_short mem size W H hH hW hWpos hHpos hcap hlen)
      (fun i j g hi hj hc => pixelColor_error_kind mem size W H i j hH hW hi hj hcap g hc)
      img hs
    exact ⟨g, by rw [readClipboard_32 mem size img hsize hbits, hg], fun _ => hPg⟩
  · obtain ⟨g, hg⟩ := readClipboard_beyond mem size W H img hsize hbits hW hH hWpos hHpos hs
      (by omega)
    exact ⟨g, hg, fun hc => absurd hc hcap⟩

theorem last_offset (W H : Nat) (hWpos : 0 < W) (hHpos : 0 < H) :
    (H - 1 - 0) * W * 4 + (W - 1) * 4 + 4 = 4 * W * H := by
  obtain ⟨W', rfl⟩ : ∃ W', W = W' + 1 := ⟨W - 1, by omega⟩
  obtain ⟨H', rfl⟩ : ∃ H', H = H' + 1 := ⟨H - 1, by omega⟩
  simp only [Nat.add_sub_cancel, Nat.sub_zero]
  ring

/-- C5, the claim refuted.  A header of 2 x 1 pixels followed by one pixel only:
with four readable bytes `AB` behind the buffer `readClipboard` returns `nil`
and the second pixel holds those bytes; with nothing readable behind the buffer
the load faults.  A buffer whose `biSize` field (100) exceeds its length (44):
the pixel is taken from behind the buffer.  An 8 byte buffer: the header fields
are loaded from behind it.  No error is returned in any of these runs. -/
theorem truncated_buffers_no_error :
    (truncMem.drop 40).length < 4 * 2 * 1 ∧
      readClipboard (.locked (truncMem ++ [0xAB, 0xAB, 0xAB, 0xAB])) (zeroNRGBA 2 1) =
        .returned none ⟨[30, 20, 10, 40, 0xAB, 0xAB, 0xAB, 0xAB], 8, Rect0 2 1⟩ ∧
      readClipboard (.locked truncMem) (zeroNRGBA 2 1) = .crashed Fault.accessViolation ∧
      biSize farMem = .ok 100 ∧ farMem.length < 100 ∧
      readClipboard (.locked (farMem ++ List.replicate 60 0xAB)) (zeroNRGBA 1 1) =
        .returned none ⟨[0xAB, 0xAB, 0xAB, 0xAB], 4, Rect0 1 1⟩ ∧
      shortMem.length < 40 ∧
      readClipboard (.locked shortMem) (zeroNRGBA 1 1) = .crashed Fault.accessViolation ∧
      readClipboard
          (.locked (shortMem ++ ([1, 0, 0, 0, 1, 0, 32, 0] ++ List.replicate 24 0 ++
            [10, 20, 30, 40])))
          (zeroNRGBA 1 1) =
        .returned none ⟨[30, 20, 10, 40], 4, Rect0 1 1⟩ := by
  decide

/-- C5, amended: `readClipboard` checks no length and has no error for a
truncated buffer; it loads past the end of the buffer.  Let a buffer `buf`, with
the readable bytes `behind` it, give bit count 32, `W > 0`, `H > 0` and a pixel
region (the bytes of `buf` from offset `biSize` on, none when `biSize` exceeds
the buffer length) shorter than `W*H*4` bytes, and let the target have size
`W` x `H`.  Then the last byte of pixel `(W-1, 0)` is loaded from an offset past
the end of the buffer.  If `W*H*4` bytes are readable from offset `biSize` on,
the decode returns `nil` and the pixels are made of the bytes found there, those
behind the buffer included; if not, the run stops with an access violation.  It
returns an error in neither case.  When fewer than 16 bytes are readable at all
the load of the header fields is an access violation.  Any error `readClipboard`
does return is one of the two bit depth errors. -/
theorem truncated_buffer_read_past_end (buf behind : List Nat) (size W H : Nat)
    (img : NRGBA)
    (hsize : biSize (buf ++ behind) = .ok size)
    (hbits : biBitCount (buf ++ behind) = .ok 32)
    (hW : biWidth (buf ++ behind) = .ok (W : Int))
    (hH : biHeight (buf ++ behind) = .ok (H : Int))
    (hWpos : 0 < W) (hHpos : 0 < H) (hs : img.Allocated W H)
    (hlen : (buf.drop size).length < 4 * W * H) :
    buf.length ≤ size + ((H - 1 - 0) * W * 4 + (W - 1) * 4 + 3) ∧
    (4 * W * H ≤ ((buf ++ behind).drop size).length →
      ∃ r, readClipboard (.locked (buf ++ behind)) img = .returned none r ∧
        ∀ x y : Nat, x < W → y < H →
          r.NRGBAAt (x : Int) (y : Int) =
            .ok (srcColor ((buf ++ behind).drop size) ((H - 1 - y) * W * 4 + x * 4))) ∧
    (((buf ++ behind).drop size).length < 4 * W * H →
      readClipboard (.locked (buf ++ behind)) img = .crashed Fault.accessViolation) ∧
    (∀ (err : Error) (r : NRGBA),
      readClipboard (.locked (buf ++ behind)) img ≠ .returned (some err) r) ∧
    (∀ (mem' : List Nat) (tgt : NRGBA), mem'.length < 16 →
      readClipboard (.locked mem') tgt = .crashed Fault.accessViolation) ∧
    (∀ (mem' : List Nat) (tgt r : NRGBA) (err : Error),
      readClipboard (.locked mem') tgt = .returned (some err) r →
        err = errUnimplemented ∨ err = errUnsupported) := by
  have hcap := allocated_cap img W H hs
  have hfull : 4 * W * H ≤ ((buf ++ behind).drop size).length →
      ∃ r, readClipboard (.locked (buf ++ behind)) img = .returned none r ∧
        ∀ x y : Nat, x < W → y < H →
          r.NRGBAAt (x : Int) (y : Int) =
            .ok (srcColor ((buf ++ behind).drop size) ((H - 1 - y) * W * 4 + x * 4)) := by
    intro hl
    obtain ⟨r, hr, -, hpix⟩ := readClipboard_32_spec (buf ++ behind) size W H W H img hsize
      hbits hW hH (Nat.le_refl W) (Nat.le_refl H) hl hcap hs.1
    exact ⟨r, hr, hpix⟩
  have hshort : ((buf ++ behind).drop size).length < 4 * W * H →
      readClipboard (.locked (buf ++ behind)) img = .crashed Fault.accessViolation := by
    intro hl
    obtain ⟨f, hf, hk⟩ := readClipboard_truncated (buf ++ behind) size W H img hsize hbits
      hW hH hWpos hHpos hs.1 hl
    rw [hf, hk hcap]
  refine ⟨?_, hfull, hshort, fun err r he => ?_,
    fun mem' tgt hl => readClipboard_short mem' tgt hl,
    fun mem' tgt r err he => (readClipboard_error_cases mem' tgt r err he).2⟩
  · have e := last_offset W H hWpos hHpos
    rw [List.length_drop] at hlen
    omega
  · by_cases hl : 4 * W * H ≤ ((buf ++ behind).drop size).length
    · obtain ⟨r', hr', -⟩ := hfull hl
      rw [hr'] at he
      cases he
    · rw [hshort (by omega)] at he
      cases he

/-- Witness of C5, amended: the 2 x 1 header followed by one pixel, with four
readable bytes `AB` behind the buffer. -/
theorem truncated_buffer_read_past_end_witness :
    (truncMem.drop 40).length < 4 * 2 * 1 ∧
      truncMem.length ≤ 40 + ((1 - 1 - 0) * 2 * 4 + (2 - 1) * 4 + 3) ∧
      ∃ r, readClipboard (.locked (truncMem ++ [0xAB, 0xAB, 0xAB, 0xAB])) (zeroNRGBA 2 1) =
          .returned none r ∧
        r.NRGBAAt 1 0 = .ok { R := 0xAB, G := 0xAB, B := 0xAB, A := 0xAB } := by
  obtain ⟨h1, h2, -⟩ := truncated_buffer_read_past_end truncMem [0xAB, 0xAB, 0xAB, 0xAB]
    40 2 1 (zeroNRGBA 2 1) (by decide) (by decide) (by decide) (by decide) (by decide)
    (by decide) (by decide) (by decide)
  obtain ⟨r, hr, hpix⟩ := h2 (by decide)
  exact ⟨by decide, h1, r, hr, hpix 1 0 (by decide) (by decide)⟩

/-! ### The synthetic bitmap of an image -/

theorem length_flatMap_range (f : Nat → List Nat) (m : Nat) (hf : ∀ i, (f i).length = m) :
    ∀ n, ((List.range n).flatMap f).length = n * m
  | 0 => by simp
  | n + 1 => by
    rw [List.range_succ, List.flatMap_append, List.length_append,
      length_flatMap_range f m hf n, List.flatMap_singleton, hf n]
    ring

theorem getElem?_flatMap_range (f : Nat → List Nat) (m : Nat) (hf : ∀ i, (f i).length = m) :
    ∀ n i k, i < n → k < m → ((List.range n).flatMap f)[i * m + k]? = (f i)[k]?
  | 0, i, k, hi, _ => absurd hi (Nat.not_lt_zero i)
  | n + 1, i, k, hi, hk => by
    have hl := length_flatMap_range f m hf n
    rw [List.range_succ, List.flatMap_append, List.flatMap_singleton]
    rcases Nat.lt_succ_iff_lt_or_eq.mp hi with hlt | heq
    · have hb : (i + 1) * m ≤ n * m := Nat.mul_le_mul_right m hlt
      have hb' : (i + 1) * m = i * m + m := by ring
      rw [List.getElem?_append_left (by rw [hl]; omega)]
      exact getElem?_flatMap_range f m hf n i k hlt hk
    · subst heq
      rw [List.getElem?_append_right (by rw [hl]; omega), hl]
      congr 1
      omega

theorem dibRow_length (img : NRGBA) (W H r : Nat) : (dibRow img W H r).length = W * 4 :=
  length_flatMap_range (dibPixel img H r) 4 (fun _ => rfl) W

theorem srcColor_dibPixels (img : NRGBA) (W H r x : Nat) (hr : r < H) (hx : x < W) :
    srcColor (dibPixels img W H) (r * W * 4 + x * 4) = colorAt img x (H - 1 - r) := by
  have key : ∀ k, k < 4 →
      (dibPixels img W H)[r * (W * 4) + (x * 4 + k)]? = (dibPixel img H r x)[k]? := by
    intro k hk
    unfold dibPixels
    rw [getElem?_flatMap_range (dibRow img W H) (W * 4) (dibRow_length img W H) H r
      (x * 4 + k) hr (by omega)]
    unfold dibRow
    exact getElem?_flatMap_range (dibPixel img H r) 4 (fun _ => rfl) W x k hx hk
  have e0 : r * W * 4 + x * 4 = r * (W * 4) + (x * 4 + 0) := by ring
  have e1 : r * W * 4 + x * 4 + 1 = r * (W * 4) + (x * 4 + 1) := by ring
  have e2 : r * W * 4 + x * 4 + 2 = r * (W * 4) + (x * 4 + 2) := by ring
  have e3 : r * W * 4 + x * 4 + 3 = r * (W * 4) + (x * 4 + 3) := by ring
  unfold srcColor
  simp only [List.getD_eq_getElem?_getD]
  rw [e3, e2, e1, e0, key 0 (by omega), key 1 (by omega), key 2 (by omega), key 3 (by omega)]
  rfl

theorem dibPixels_length (img : NRGBA) (W H : Nat) :
    (dibPixels img W H).length = H * (W * 4) :=
  length_flatMap_range _ (W * 4) (dibRow_length img W H) H

theorem headerBytes_fields (W H : Nat) (hW : W < 2 ^ 31) (hH : H < 2 ^ 31)
    (rest : List Nat) :
    biSize (headerBytes W H 32 ++ rest) = .ok 40 ∧
      biBitCount (headerBytes W H 32 ++ rest) = .ok 32 ∧
      biWidth (headerBytes W H 32 ++ rest) = .ok (W : Int) ∧
      biHeight (headerBytes W H 32 ++ rest) = .ok (H : Int) := by
  unfold biSize biBitCount biWidth biHeight
  rw [readUint_append _ _ 0 4 (by rw [headerBytes_length]; omega),
    readUint_append _ _ 14 2 (by rw [headerBytes_length]; omega),
    readUint_append _ _ 4 4 (by rw [headerBytes_length]; omega),
    readUint_append _ _ 8 4 (by rw [headerBytes_length]; omega)]
  have hw : readUint (headerBytes W H 32) 4 4 = .ok W := by
    rw [readUint_ok _ _ _ (by rw [headerBytes_length]; omega)]
    simp only [headerBytes, List.cons_append, List.drop_succ_cons, List.drop_zero,
      List.take_succ_cons, List.take_zero, leBytes]
    congr 1
    omega
  have hh : readUint (headerBytes W H 32) 8 4 = .ok H := by
    rw [readUint_ok _ _ _ (by rw [headerBytes_length]; omega)]
    simp only [headerBytes, List.cons_append, List.drop_succ_cons, List.drop_zero,
      List.take_succ_cons, List.take_zero, leBytes]
    congr 1
    omega
  refine ⟨rfl, rfl, ?_, ?_⟩
  · rw [hw]
    exact congrArg Except.ok (wrap32_eq _ (by omega) (by exact_mod_cast hW))
  · rw [hh]
    exact congrArg Except.ok (wrap32_eq _ (by omega) (by exact_mod_cast hH))

theorem sized_ext (a b : NRGBA) (w h : Nat) (ha : a.Sized w h) (hb : b.Sized w h)
    (hpix : ∀ x y, x < w → y < h → pixAt a.Pix (y * w + x) = pixAt b.Pix (y * w + x)) :
    a = b := by
  have hla : a.Pix.length = 4 * (w * h) := by rw [ha.2.2]; ring
  have hlb : b.Pix.length = 4 * (w * h) := by rw [hb.2.2]; ring
  have hP : a.Pix = b.Pix := by
    apply List.ext_getElem?
    intro n
    by_cases hn : n < 4 * (w * h)
    · have hp : n / 4 < w * h := by omega
      have hw : 0 < w := by
        rcases Nat.eq_zero_or_pos w with h0 | h0
        · rw [h0, Nat.zero_mul] at hp
          omega
        · exact h0
      have hy : n / 4 / w < h := Nat.div_lt_of_lt_mul hp
      have hx : n / 4 % w < w := Nat.mod_lt _ hw
      have hxy : n / 4 / w * w + n / 4 % w = n / 4 := Nat.div_add_mod' _ _
      have hc := hpix (n / 4 % w) (n / 4 / w) hx hy
      rw [hxy] at hc
      unfold pixAt at hc
      simp only [List.getD_eq_getElem?_getD, Color.mk.injEq] at hc
      obtain ⟨h0, h1, h2, h3⟩ := hc
      have hsome : ∀ (l : List Nat) (i : Nat), i < l.length → l[i]? = some (l[i]?.getD 0) := by
        intro l i hi
        rw [List.getElem?_eq_getElem hi]
        rfl
      rw [hsome a.Pix n (by omega), hsome b.Pix n (by omega)]
      congr 1
      have hcase : n = 4 * (n / 4) ∨ n = 4 * (n / 4) + 1 ∨ n = 4 * (n / 4) + 2 ∨
          n = 4 * (n / 4) + 3 := by omega
      rcases hcase with e | e | e | e
      · rw [e]; exact h0
      · rw [e]; exact h1
      · rw [e]; exact h2
      · rw [e]; exact h3
    · rw [List.getElem?_eq_none (by omega), List.getElem?_eq_none (by omega)]
  cases a
  cases b
  simp only [NRGBA.mk.injEq]
  exact ⟨hP, ha.2.1.trans hb.2.1.symm, ha.1.trans hb.1.symm⟩

theorem colorAt_sized (img : NRGBA) (w h x y : Nat) (hs : img.Sized w h) (hx : x < w)
    (hy : y < h) : colorAt img x y = pixAt img.Pix (y * w + x) := by
  unfold colorAt
  rw [nrgbaAt_sized img w h x y hs hx hy]

theorem srcColor_append (l1 l2 : List Nat) (o : Nat) (h : o + 3 < l1.length) :
    srcColor (l1 ++ l2) o = srcColor l1 o := by
  unfold srcColor
  simp only [List.getD_eq_getElem?_getD]
  rw [List.getElem?_append_left (by omega), List.getElem?_append_left (by omega),
    List.getElem?_append_left (by omega), List.getElem?_append_left (by omega)]

/-- C3: round trip for 32 bit depth.  For every image of size `W` x `H`
(`W, H > 0`), whatever its bytes, take its synthetic bitmap: a header with bit
count 32, width `W` and height `H`, followed by the rows in bottom-to-top order
as B, G, R, A bytes.  Decoding that buffer, whatever lies behind it, into a
target of size `W` x `H` returns `nil` and leaves the target equal to the image:
every pixel is reproduced exactly.  (`hWf` and `hHf` say that the header of the
buffer holds the width `W` and the height `H`.) -/
theorem roundtrip_32 (orig tgt : NRGBA) (behind : List Nat) (W H : Nat)
    (ho : orig.Allocated W H) (ht : tgt.Sized W H) (_hWpos : 0 < W) (_hHpos : 0 < H)
    (hWf : biWidth (syntheticDIB orig W H) = .ok (W : Int))
    (hHf : biHeight (syntheticDIB orig W H) = .ok (H : Int)) :
    readClipboard (.locked (syntheticDIB orig W H ++ behind)) tgt = .returned none orig ∧
      ∀ x y : Nat, x < W → y < H →
        orig.NRGBAAt (x : Int) (y : Int) = .ok (colorAt orig x y) := by
  have hW : W < 2 ^ 31 := by exact_mod_cast (biWidth_range _ _ hWf).2
  have hH : H < 2 ^ 31 := by exact_mod_cast (biHeight_range _ _ hHf).2
  have hmem : syntheticDIB orig W H ++ behind =
      headerBytes W H 32 ++ (dibPixels orig W H ++ behind) := by
    unfold syntheticDIB
    rw [List.append_assoc]
  have hf := headerBytes_fields W H hW hH (dibPixels orig W H ++ behind)
  rw [← hmem] at hf
  have hdrop : (syntheticDIB orig W H ++ behind).drop 40 = dibPixels orig W H ++ behind := by
    rw [hmem]
    exact List.drop_left' (headerBytes_length W H 32)
  have hpl : (dibPixels orig W H).length = 4 * W * H := by
    rw [dibPixels_length]
    ring
  have hlen : 4 * W * H ≤ ((syntheticDIB orig W H ++ behind).drop 40).length := by
    rw [hdrop, List.length_append, hpl]
    omega
  obtain ⟨r, hr, hrs, hpix⟩ := readClipboard_32_spec (syntheticDIB orig W H ++ behind) 40
    W H W H tgt hf.1 hf.2.1 hf.2.2.1 hf.2.2.2 (Nat.le_refl W) (Nat.le_refl H) hlen
    (allocated_cap orig W H ho) ht
  have hro : r = orig := by
    apply sized_ext r orig W H hrs ho.1
    intro x y hx hy
    have hp := hpix x y hx hy
    have hb := (pixelOffset_eq W H x y hH hx hy (by have := allocated_cap orig W H ho; omega)).2
    rw [nrgbaAt_sized r W H x y hrs hx hy, hdrop,
      srcColor_append _ _ _ (by omega),
      srcColor_dibPixels orig W H (H - 1 - y) x (by omega) hx] at hp
    have e : H - 1 - (H - 1 - y) = y := by omega
    rw [e, colorAt_sized orig W H x y ho.1 hx hy] at hp
    exact Except.ok.inj hp
  rw [hro] at hr
  refine ⟨hr, fun x y hx hy => ?_⟩
  rw [colorAt_sized orig W H x y ho.1 hx hy]
  exact nrgbaAt_sized orig W H x y ho.1 hx hy

/-- Witness of C3: the used 2 x 2 image, decoded into a fresh target; the
bitmap's rows are the image's rows in reverse order with B and R swapped. -/
theorem roundtrip_32_witness :
    usedTarget.Allocated 2 2 ∧ (zeroNRGBA 2 2).Sized 2 2 ∧
      syntheticDIB usedTarget 2 2 =
        headerBytes 2 2 32 ++ [11, 10, 9, 12, 15, 14, 13, 16, 3, 2, 1, 4, 7, 6, 5, 8] ∧
      readClipboard (.locked (syntheticDIB usedTarget 2 2 ++ [])) (zeroNRGBA 2 2) =
        .returned none usedTarget :=
  ⟨by decide, by decide, by decide,
    (roundtrip_32 usedTarget (zeroNRGBA 2 2) [] 2 2 (by decide) (by decide) (by decide)
      (by decide) (by decide) (by decide)).1⟩

end Clip2png
